import Mathlib

/-!
Verification of the TWSE auction-calendar pipeline.

Shallow embedding of the three pipeline variants of this repository:

* `generate_calendar.py`            (namespace `GC`)
* `scripts/generate_twse_auction_calendar.py` (namespace `GT`)
* `scripts/twse_auction_calendar.py` (namespace `TA`)

Machine-level helpers (UTF-8 encoding, MD5, SHA-1, Gregorian dates,
CPython `int`/`strptime` parsing) are modelled first, in namespace `Util`.
All definitions are executable; theorems about the claims follow at the
end of the file.
-/

namespace Util

/-- 2^32, the modulus for 32-bit words. -/
def M32 : Nat := 4294967296

/-- 32-bit addition (mod 2^32). -/
def add32 (a b : Nat) : Nat := (a + b) % M32

/-- 32-bit bitwise complement. -/
def not32 (a : Nat) : Nat := Nat.xor a (M32 - 1)

/-- 32-bit left rotation by `s` (0 ≤ s < 32). -/
def rotl32 (x s : Nat) : Nat :=
  (Nat.lor (Nat.shiftLeft x s) (Nat.shiftRight x (32 - s))) % M32

/-- UTF-8 encoding of one character, as a list of byte values.
Mirrors `ch.encode("utf-8")` in CPython for unicode scalar values. -/
def utf8Bytes (c : Char) : List Nat :=
  let n := c.toNat
  if n < 128 then [n]
  else if n < 2048 then
    [Nat.lor 192 (Nat.shiftRight n 6), Nat.lor 128 (Nat.land n 63)]
  else if n < 65536 then
    [Nat.lor 224 (Nat.shiftRight n 12),
     Nat.lor 128 (Nat.land (Nat.shiftRight n 6) 63),
     Nat.lor 128 (Nat.land n 63)]
  else
    [Nat.lor 240 (Nat.shiftRight n 18),
     Nat.lor 128 (Nat.land (Nat.shiftRight n 12) 63),
     Nat.lor 128 (Nat.land (Nat.shiftRight n 6) 63),
     Nat.lor 128 (Nat.land n 63)]

/-- Number of bytes in the UTF-8 encoding of one character
(= `len(ch.encode("utf-8"))`). -/
def chLen (c : Char) : Nat := (utf8Bytes c).length

/-- UTF-8 bytes of a string (= `s.encode("utf-8")`). -/
def strBytes (s : String) : List Nat := s.data.flatMap utf8Bytes

/-- Byte length of the UTF-8 encoding of a string. -/
def utf8Len (s : String) : Nat := (strBytes s).length

/-- Byte length of the UTF-8 encoding of a list of characters. -/
def utf8LenL (cs : List Char) : Nat := (cs.flatMap utf8Bytes).length

/-- One lowercase hexadecimal digit. -/
def hexDigit (n : Nat) : Char :=
  if n < 10 then Char.ofNat (48 + n) else Char.ofNat (87 + n)

/-- Two lowercase hex digits for one byte. -/
def byteHex (b : Nat) : List Char := [hexDigit (b / 16), hexDigit (b % 16)]

/-- Lowercase hex string for a list of bytes (= `bytes.hex()` /
`hashlib`'s `hexdigest` rendering). -/
def bytesHex (bs : List Nat) : String := ⟨bs.flatMap byteHex⟩

/-- Fuel-driven worker for `chunksOf1` (structural recursion, so that
the kernel can evaluate it; the fuel never runs out when it starts at
the list length). -/
def chunksGo (n : Nat) : Nat → List α → List (List α)
  | _, [] => []
  | 0, l => [l]
  | fuel + 1, a :: rest => (a :: rest.take n) :: chunksGo n fuel (rest.drop n)

/-- Split a list into consecutive chunks of size `n + 1`. -/
def chunksOf1 (n : Nat) (l : List α) : List (List α) := chunksGo n l.length l

/-- A word from 4 bytes, little-endian (first byte is least significant). -/
def wordLE : List Nat → Nat
  | [] => 0
  | b :: rest => b + 256 * wordLE rest

/-- A word from bytes, big-endian (first byte is most significant). -/
def wordBE (bs : List Nat) : Nat := bs.foldl (fun acc b => acc * 256 + b) 0

/-- The 4 little-endian bytes of a 32-bit word. -/
def wordBytesLE (w : Nat) : List Nat :=
  [w % 256, w / 256 % 256, w / 65536 % 256, w / 16777216 % 256]

/-- The 4 big-endian bytes of a 32-bit word. -/
def wordBytesBE (w : Nat) : List Nat :=
  [w / 16777216 % 256, w / 65536 % 256, w / 256 % 256, w % 256]

/-- The 8 bytes of a 64-bit quantity, little-endian. -/
def len8LE (n : Nat) : List Nat :=
  (List.range 8).map fun i => n / 256 ^ i % 256

/-- The 8 bytes of a 64-bit quantity, big-endian. -/
def len8BE (n : Nat) : List Nat :=
  ((List.range 8).map fun i => n / 256 ^ i % 256).reverse

/-- Merkle–Damgård padding shared by MD5 and SHA-1: append `0x80`, then
zeros up to 56 mod 64 bytes, then the 8-byte bit length (`lenBytes`). -/
def mdPad (lenBytes : Nat → List Nat) (msg : List Nat) : List Nat :=
  let l := msg.length
  let zeros := (55 + 64 - l % 64) % 64
  msg ++ [128] ++ List.replicate zeros 0 ++ lenBytes ((8 * l) % 2 ^ 64)

/-- MD5 per-round shift amounts. -/
def md5S : List Nat :=
  [7, 12, 17, 22, 7, 12, 17, 22, 7, 12, 17, 22, 7, 12, 17, 22,
   5, 9, 14, 20, 5, 9, 14, 20, 5, 9, 14, 20, 5, 9, 14, 20,
   4, 11, 16, 23, 4, 11, 16, 23, 4, 11, 16, 23, 4, 11, 16, 23,
   6, 10, 15, 21, 6, 10, 15, 21, 6, 10, 15, 21, 6, 10, 15, 21]

/-- MD5 sine-derived constants (RFC 1321 table T). -/
def md5K : List Nat :=
  [0xd76aa478, 0xe8c7b756, 0x242070db, 0xc1bdceee,
   0xf57c0faf, 0x4787c62a, 0xa8304613, 0xfd469501,
   0x698098d8, 0x8b44f7af, 0xffff5bb1, 0x895cd7be,
   0x6b901122, 0xfd987193, 0xa679438e, 0x49b40821,
   0xf61e2562, 0xc040b340, 0x265e5a51, 0xe9b6c7aa,
   0xd62f105d, 0x02441453, 0xd8a1e681, 0xe7d3fbc8,
   0x21e1cde6, 0xc33707d6, 0xf4d50d87, 0x455a14ed,
   0xa9e3e905, 0xfcefa3f8, 0x676f02d9, 0x8d2a4c8a,
   0xfffa3942, 0x8771f681, 0x6d9d6122, 0xfde5380c,
   0xa4beea44, 0x4bdecfa9, 0xf6bb4b60, 0xbebfbc70,
   0x289b7ec6, 0xeaa127fa, 0xd4ef3085, 0x04881d05,
   0xd9d4d039, 0xe6db99e5, 0x1fa27cf8, 0xc4ac5665,
   0xf4292244, 0x432aff97, 0xab9423a7, 0xfc93a039,
   0x655b59c3, 0x8f0ccc92, 0xffeff47d, 0x85845dd1,
   0x6fa87e4f, 0xfe2ce6e0, 0xa3014314, 0x4e0811a1,
   0xf7537e82, 0xbd3af235, 0x2ad7d2bb, 0xeb86d391]

/-- One MD5 step at index `i` on state `(a, b, c, d)` with message words `m`. -/
def md5Step (m : List Nat) (st : Nat × Nat × Nat × Nat) (i : Nat) :
    Nat × Nat × Nat × Nat :=
  let (a, b, c, d) := st
  let f :=
    if i < 16 then Nat.lor (Nat.land b c) (Nat.land (not32 b) d)
    else if i < 32 then Nat.lor (Nat.land d b) (Nat.land (not32 d) c)
    else if i < 48 then Nat.xor (Nat.xor b c) d
    else Nat.xor c (Nat.lor b (not32 d))
  let g :=
    if i < 16 then i
    else if i < 32 then (5 * i + 1) % 16
    else if i < 48 then (3 * i + 5) % 16
    else (7 * i) % 16
  let tmp := add32 (add32 (add32 a f) (md5K.getD i 0)) (m.getD g 0)
  (d, add32 b (rotl32 tmp (md5S.getD i 0)), b, c)

/-- Process one 64-byte MD5 block. -/
def md5Block (st : Nat × Nat × Nat × Nat) (block : List Nat) :
    Nat × Nat × Nat × Nat :=
  let m := (chunksOf1 3 block).map wordLE
  let (a, b, c, d) := (List.range 64).foldl (md5Step m) st
  let (a0, b0, c0, d0) := st
  (add32 a0 a, add32 b0 b, add32 c0 c, add32 d0 d)

/-- MD5 digest (16 bytes) of a byte sequence. -/
def md5Digest (msg : List Nat) : List Nat :=
  let st := (chunksOf1 63 (mdPad len8LE msg)).foldl md5Block
    (0x67452301, 0xefcdab89, 0x98badcfe, 0x10325476)
  wordBytesLE st.1 ++ wordBytesLE st.2.1 ++ wordBytesLE st.2.2.1 ++
    wordBytesLE st.2.2.2

/-- `hashlib.md5(s.encode()).hexdigest()`. -/
def md5Hex (s : String) : String := bytesHex (md5Digest (strBytes s))

/-- SHA-1 message-schedule extension from 16 to 80 words. -/
def sha1Extend (ws : List Nat) : Nat → List Nat
  | 0 => ws
  | n + 1 =>
    let ws := sha1Extend ws n
    let i := ws.length
    ws ++ [rotl32 (Nat.xor (Nat.xor (ws.getD (i - 3) 0) (ws.getD (i - 8) 0))
      (Nat.xor (ws.getD (i - 14) 0) (ws.getD (i - 16) 0))) 1]

/-- One SHA-1 step at index `i` on state `(a, b, c, d, e)`. -/
def sha1Step (w : List Nat) (st : Nat × Nat × Nat × Nat × Nat) (i : Nat) :
    Nat × Nat × Nat × Nat × Nat :=
  let (a, b, c, d, e) := st
  let f :=
    if i < 20 then Nat.lor (Nat.land b c) (Nat.land (not32 b) d)
    else if i < 40 then Nat.xor (Nat.xor b c) d
    else if i < 60 then
      Nat.lor (Nat.lor (Nat.land b c) (Nat.land b d)) (Nat.land c d)
    else Nat.xor (Nat.xor b c) d
  let k :=
    if i < 20 then 0x5a827999
    else if i < 40 then 0x6ed9eba1
    else if i < 60 then 0x8f1bbcdc
    else 0xca62c1d6
  let tmp := add32 (add32 (add32 (add32 (rotl32 a 5) f) e) k) (w.getD i 0)
  (tmp, a, rotl32 b 30, c, d)

/-- Process one 64-byte SHA-1 block. -/
def sha1Block (st : Nat × Nat × Nat × Nat × Nat) (block : List Nat) :
    Nat × Nat × Nat × Nat × Nat :=
  let w := sha1Extend ((chunksOf1 3 block).map wordBE) 64
  let (a, b, c, d, e) := (List.range 80).foldl (sha1Step w) st
  let (a0, b0, c0, d0, e0) := st
  (add32 a0 a, add32 b0 b, add32 c0 c, add32 d0 d, add32 e0 e)

/-- SHA-1 digest (20 bytes) of a byte sequence. -/
def sha1Digest (msg : List Nat) : List Nat :=
  let st := (chunksOf1 63 (mdPad len8BE msg)).foldl sha1Block
    (0x67452301, 0xefcdab89, 0x98badcfe, 0x10325476, 0xc3d2e1f0)
  wordBytesBE st.1 ++ wordBytesBE st.2.1 ++ wordBytesBE st.2.2.1 ++
    wordBytesBE st.2.2.2.1 ++ wordBytesBE st.2.2.2.2

/-- `hashlib.sha1(s.encode("utf-8")).hexdigest()`. -/
def sha1Hex (s : String) : String := bytesHex (sha1Digest (strBytes s))

/-- ASCII whitespace as recognized by CPython's `str.strip()` / `int()`
(the model covers the ASCII range; the claims involve no non-ASCII
whitespace). -/
def isPySpace (c : Char) : Bool :=
  c = ' ' || c = '\t' || c = '\n' || c = '\r' ||
    c = Char.ofNat 11 || c = Char.ofNat 12

/-- `s.strip()` on both ends. -/
def pyStrip (s : String) : String :=
  ⟨(s.data.dropWhile isPySpace).reverse.dropWhile isPySpace |>.reverse⟩

/-- ASCII decimal digit test. -/
def isDigit (c : Char) : Bool := '0' ≤ c && c ≤ '9'

/-- Numeric value of a digit character. -/
def digitVal (c : Char) : Nat := c.toNat - 48

/-- Value of a string of digits (no validity check). -/
def digitsVal (cs : List Char) : Nat :=
  cs.foldl (fun acc c => 10 * acc + digitVal c) 0

/-- Split on a single-character separator, as CPython's
`s.split(sep)` (an empty string yields `[""]`, adjacent separators
yield empty components). -/
def splitOnCharGo (sep : Char) : List Char → List Char → List (List Char)
  | [], acc => [acc.reverse]
  | c :: rest, acc =>
    if c = sep then acc.reverse :: splitOnCharGo sep rest []
    else splitOnCharGo sep rest (c :: acc)

/-- `s.split(sep)` for a one-character separator. -/
def splitOnChar (sep : Char) (s : String) : List (List Char) :=
  splitOnCharGo sep s.data []

/-- Fuel-driven worker for `pyReplace` (fuel starts at the text length
and never runs out; the pattern is never empty at the call sites). -/
def replaceGo (pat rep : List Char) : Nat → List Char → List Char
  | _, [] => []
  | 0, l => l
  | fuel + 1, c :: rest =>
    if pat.isPrefixOf (c :: rest) then
      rep ++ replaceGo pat rep fuel ((c :: rest).drop pat.length)
    else c :: replaceGo pat rep fuel rest

/-- CPython `s.replace(pat, rep)`: non-overlapping left-to-right
replacement of every occurrence (call sites only use non-empty `pat`). -/
def pyReplace (s pat rep : String) : String :=
  ⟨replaceGo pat.data rep.data s.data.length s.data⟩

/-- Strict lexicographic comparison of character lists by code point,
as CPython compares `str` values. -/
def lexLt : List Char → List Char → Bool
  | _, [] => false
  | [], _ :: _ => true
  | a :: as, b :: bs =>
    if a < b then true
    else if b < a then false
    else lexLt as bs

/-- CPython `s < t` on strings. -/
def strLt (s t : String) : Bool := lexLt s.data t.data

/-- CPython `s <= t` on strings. -/
def strLe (s t : String) : Bool := ! strLt t s

/-- A Gregorian calendar date, mirroring CPython's `datetime.date`
(whose constructor admits `1 <= year <= 9999` and a valid month/day). -/
structure PyDate where
  year : Nat
  month : Nat
  day : Nat
deriving DecidableEq, Repr

/-- Gregorian leap-year test. -/
def isLeap (y : Nat) : Bool := y % 4 = 0 && (y % 100 ≠ 0 || y % 400 = 0)

/-- Days in a month of a given year. -/
def daysInMonth (y m : Nat) : Nat :=
  if m = 2 then (if isLeap y then 29 else 28)
  else if m = 4 || m = 6 || m = 9 || m = 11 then 30
  else 31

/-- The validity condition enforced by `datetime.date(y, m, d)`. -/
def validDate (y m d : Nat) : Bool :=
  1 ≤ y && y ≤ 9999 && 1 ≤ m && m ≤ 12 && 1 ≤ d && d ≤ daysInMonth y m

/-- `d + timedelta(days=1)`: the next calendar day. -/
def nextDay (d : PyDate) : PyDate :=
  if d.day < daysInMonth d.year d.month then ⟨d.year, d.month, d.day + 1⟩
  else if d.month < 12 then ⟨d.year, d.month + 1, 1⟩
  else ⟨d.year + 1, 1, 1⟩

/-- Zero-pad a number to two digits. -/
def pad2 (n : Nat) : String := if n < 10 then "0" ++ toString n else toString n

/-- Zero-pad a number to four digits. -/
def pad4 (n : Nat) : String :=
  if n < 10 then "000" ++ toString n
  else if n < 100 then "00" ++ toString n
  else if n < 1000 then "0" ++ toString n
  else toString n

/-- `d.strftime("%Y%m%d")`. -/
def fmtYYYYMMDD (d : PyDate) : String := pad4 d.year ++ pad2 d.month ++ pad2 d.day

/-- `d.isoformat()`: `YYYY-MM-DD`. -/
def isoformat (d : PyDate) : String :=
  pad4 d.year ++ "-" ++ pad2 d.month ++ "-" ++ pad2 d.day

/-- `d.strftime("%Y/%m/%d")`. -/
def fmtSlash (d : PyDate) : String :=
  pad4 d.year ++ "/" ++ pad2 d.month ++ "/" ++ pad2 d.day

/-- Does a string match CPython `_strptime`'s regex fragment for `%Y`
(exactly four decimal digits)? -/
def yearTextOK (cs : List Char) : Bool := cs.length = 4 && cs.all isDigit

/-- CPython `_strptime` regex fragment for `%m`:
`1[0-2]|0[1-9]|[1-9]` matched against the whole component. -/
def monthTextOK (cs : List Char) : Bool :=
  cs.all isDigit &&
    ((cs.length = 1 && 1 ≤ digitsVal cs && digitsVal cs ≤ 9) ||
     (cs.length = 2 && 1 ≤ digitsVal cs && digitsVal cs ≤ 12))

/-- CPython `_strptime` regex fragment for `%d`:
`3[01]|[12]\d|0[1-9]|[1-9]` matched against the whole component. -/
def dayTextOK (cs : List Char) : Bool :=
  cs.all isDigit &&
    ((cs.length = 1 && 1 ≤ digitsVal cs && digitsVal cs ≤ 9) ||
     (cs.length = 2 && 1 ≤ digitsVal cs && digitsVal cs ≤ 31))

/-- `datetime.strptime(s, "%Y<sep>%m<sep>%d").date()` as an `Option`
(`none` models the caught `ValueError`).  Because the numeric components
contain no separator characters, the anchored regex match used by
`_strptime` is equivalent to splitting on the separator. -/
def strptimeYMD (sep : Char) (s : String) : Option PyDate :=
  match splitOnChar sep s with
  | [ys, ms, ds] =>
    if yearTextOK ys && monthTextOK ms && dayTextOK ds &&
        validDate (digitsVal ys) (digitsVal ms) (digitsVal ds) then
      some ⟨digitsVal ys, digitsVal ms, digitsVal ds⟩
    else none
  | _ => none

/-- Digit part of the CPython `int()` literal grammar after the first
digit: digits with single underscores allowed between digits. -/
def pyDigitsAux : List Char → Nat → Option Nat
  | [], acc => some acc
  | '_' :: c :: rest, acc =>
    if isDigit c then pyDigitsAux rest (10 * acc + digitVal c) else none
  | ['_'], _ => none
  | c :: rest, acc =>
    if isDigit c then pyDigitsAux rest (10 * acc + digitVal c) else none

/-- CPython `int()` digit part: nonempty ASCII digits with single
underscores between digits. -/
def pyDigits (cs : List Char) : Option Nat :=
  match cs with
  | c :: rest => if isDigit c then pyDigitsAux rest (digitVal c) else none
  | [] => none

/-- CPython `int(s)`: strip whitespace, optional sign, digit part
(`none` models the raised `ValueError`; ASCII digits modelled). -/
def pyInt (s : String) : Option Int :=
  match (pyStrip s).data with
  | '+' :: rest => (pyDigits rest).map Int.ofNat
  | '-' :: rest => (pyDigits rest).map fun n => -(n : Int)
  | cs => (pyDigits cs).map Int.ofNat

/-! ### Python `dict` model

A CPython `dict` with string keys is modelled as an association list
with pairwise-distinct keys: insertion order is preserved, inserting an
existing key overwrites its value in place. -/

/-- `m[k] = v` on a dict: replace in place if the key exists, else append. -/
def upsert (m : List (String × α)) (k : String) (v : α) : List (String × α) :=
  if m.any (fun p => p.1 = k) then
    m.map (fun p => if p.1 = k then (k, v) else p)
  else m ++ [(k, v)]

/-- Build a dict from a pair sequence (`dict(pairs)`): later pairs win. -/
def dictOfPairs (ps : List (String × α)) : List (String × α) :=
  ps.foldl (fun m p => upsert m p.1 p.2) []

/-- `m.get(k)` as an option (`none` = key absent). -/
def dget (m : List (String × α)) (k : String) : Option α :=
  (m.find? (fun p => p.1 = k)).map (fun p => p.2)

/-- `m.get(k, dflt)`. -/
def dgetD (m : List (String × α)) (k : String) (dflt : α) : α :=
  (dget m k).getD dflt

/-- The keys of a dict, in order (`list(m.keys())`). -/
def dictKeys (m : List (String × α)) : List String := m.map (fun p => p.1)

/-- Deduplicate a string list keeping first occurrences (the content of a
Python `set(...)` built from it, before sorting). -/
def dedupFirst (l : List String) : List String :=
  l.foldl (fun acc k => if acc.contains k then acc else acc ++ [k]) []

/-- `sorted(...)` on strings: ascending code-point lexicographic order,
as CPython compares `str` (a stable ascending sort; `insertionSort` and
Timsort agree on every input). -/
def sortStr (l : List String) : List String :=
  List.insertionSort (fun a b => strLe a b = true) l

end Util

namespace GC

/-! ### Embedding of `generate_calendar.py`

Rows are Python dicts of field name → raw string value.  The `icalendar`
library is external; an `Event` is modelled by the values the script
adds to it, and the calendar by its event list.  The generation
timestamp `datetime.now(...)` is impure and is passed in as the `now`
parameter. -/

open Util

/-- A TWSE data row: a dict of field name → value. -/
abbrev Row := List (String × String)

/-- `FIELD_LABELS`: the fixed field → label translation table. -/
def FIELD_LABELS : List (String × String) :=
  [("序號", "序號"),
   ("開標日期", "開標日期"),
   ("證券名稱", "證券名稱"),
   ("證券代號", "證券代號"),
   ("發行市場", "發行市場"),
   ("發行性質", "發行性質"),
   ("競拍方式", "競拍方式"),
   ("投標開始日", "投標開始日"),
   ("投標結束日", "投標結束日"),
   ("競拍數量(張)", "競拍數量"),
   ("最低投標價格(元)", "最低投標價格"),
   ("最低每標單投標數量(張)", "最低每標單投標數量"),
   ("最高投(得)標數量(張)", "最高投(得)標數量"),
   ("保證金成數(%)", "保證金成數"),
   ("每一投標單投標處理費(元)", "投標處理費"),
   ("撥券日期(上市、上櫃日期)", "撥券日期"),
   ("主辦券商", "主辦券商"),
   ("得標總金額(元)", "得標總金額"),
   ("得標手續費率(%)", "得標手續費率"),
   ("總合格件", "總合格件"),
   ("合格投標數量(張)", "合格投標數量"),
   ("最低得標價格(元)", "最低得標價格"),
   ("最高得標價格(元)", "最高得標價格"),
   ("得標加權平均價格(元)", "得標加權平均價格"),
   ("實際承銷價格(元)", "實際承銷價格"),
   ("取消競價拍賣(流標或取消)", "取消競價拍賣")]

/-- `row_key`: security code + open date as the record's unique key. -/
def row_key (row : Row) : String :=
  pyStrip (dgetD row "證券代號" "") ++ "-" ++ pyStrip (dgetD row "開標日期" "")

/-- `dict(zip(fields, row))` used by `fetch_auction_data`. -/
def rowOfData (fields : List String) (r : List String) : Row :=
  dictOfPairs (fields.zip r)

/-- The per-key field diff computed inside `diff_data`'s `changed` loop:
ordered `(label, old, new)` tuples over the sorted union of field names. -/
def diffFields (old_row new_row : Row) : List (String × String × String) :=
  let all_fields := sortStr (dedupFirst (dictKeys old_row ++ dictKeys new_row))
  all_fields.filterMap fun field =>
    let old_val := pyStrip (dgetD old_row field "")
    let new_val := pyStrip (dgetD new_row field "")
    if old_val ≠ new_val then
      some (dgetD FIELD_LABELS field field, old_val, new_val)
    else none

/-- `diff_data`: compare old and new keyed maps, returning
`(added, removed, changed)`. -/
def diff_data (old_map new_map : List (String × Row)) :
    List Row × List Row × List (Row × List (String × String × String)) :=
  let old_keys := dictKeys old_map
  let new_keys := dictKeys new_map
  let added := (sortStr (new_keys.filter (fun k => ¬ old_keys.contains k))).filterMap
    (dget new_map)
  let removed := (sortStr (old_keys.filter (fun k => ¬ new_keys.contains k))).filterMap
    (dget old_map)
  let changed := (sortStr (old_keys.filter (fun k => new_keys.contains k))).filterMap
    fun k =>
      match dget old_map k, dget new_map k with
      | some old_row, some new_row =>
        let diffs := diffFields old_row new_row
        if diffs ≠ [] then some (new_row, diffs) else none
      | _, _ => none
  (added, removed, changed)

/-- One field of a Discord embed. -/
structure EmbedField where
  name : String
  value : String
  inline : Bool
deriving DecidableEq, Repr

/-- One Discord embed message unit. -/
structure Embed where
  title : String
  color : Nat
  fields : List EmbedField := []
  description : Option String := none
deriving DecidableEq, Repr

/-- One webhook dispatch payload (one HTTP POST). -/
structure Payload where
  username : String
  avatar_url : String
  embeds : List Embed
  content : Option String := none
deriving DecidableEq, Repr

/-- The embed built for one added row. -/
def addedEmbed (row : Row) : Embed :=
  let name := pyStrip (dgetD row "證券名稱" "")
  let code := pyStrip (dgetD row "證券代號" "")
  let nature := pyStrip (dgetD row "發行性質" "")
  let market := pyStrip (dgetD row "發行市場" "")
  let bid_start := pyStrip (dgetD row "投標開始日" "")
  let bid_end := pyStrip (dgetD row "投標結束日" "")
  let open_date := pyStrip (dgetD row "開標日期" "")
  let listing := pyStrip (dgetD row "撥券日期(上市、上櫃日期)" "")
  let qty := pyStrip (dgetD row "競拍數量(張)" "")
  let min_price := pyStrip (dgetD row "最低投標價格(元)" "")
  let broker := pyStrip (dgetD row "主辦券商" "")
  { title := "🆕 新增拍賣｜" ++ name ++ "（" ++ code ++ "）",
    color := 0x22C55E,
    fields :=
      [⟨"發行性質", if nature = "" then "-" else nature, true⟩,
       ⟨"發行市場", if market = "" then "-" else market, true⟩,
       ⟨"主辦券商", if broker = "" then "-" else broker, true⟩,
       ⟨"投標期間", if bid_start = "" then "-" else bid_start ++ " ~ " ++ bid_end, true⟩,
       ⟨"開標日期", if open_date = "" then "-" else open_date, true⟩,
       ⟨"撥券日期", if listing = "" then "-" else listing, true⟩,
       ⟨"競拍數量", if qty = "" then "-" else qty ++ " 張", true⟩,
       ⟨"最低投標價格", if min_price = "" then "-" else min_price ++ " 元", true⟩] }

/-- The embed built for one changed row with its field diffs. -/
def changedEmbed (p : Row × List (String × String × String)) : Embed :=
  let name := pyStrip (dgetD p.1 "證券名稱" "")
  let code := pyStrip (dgetD p.1 "證券代號" "")
  { title := "📝 資料更新｜" ++ name ++ "（" ++ code ++ "）",
    color := 0x3B82F6,
    fields := p.2.map fun d =>
      ⟨d.1,
       "~~" ++ (if d.2.1 = "" then "(空)" else d.2.1) ++ "~~ → **" ++
         (if d.2.2 = "" then "(空)" else d.2.2) ++ "**",
       true⟩ }

/-- The embed built for one removed row. -/
def removedEmbed (row : Row) : Embed :=
  let name := pyStrip (dgetD row "證券名稱" "")
  let code := pyStrip (dgetD row "證券代號" "")
  { title := "❌ 已移除｜" ++ name ++ "（" ++ code ++ "）",
    color := 0xEF4444,
    description := some ("開標日期：" ++ dgetD row "開標日期" "-") }

/-- The embed list: one per added, then per changed, then per removed row. -/
def buildEmbeds (added : List Row)
    (removed : List Row)
    (changed : List (Row × List (String × String × String))) : List Embed :=
  added.map addedEmbed ++ changed.map changedEmbed ++ removed.map removedEmbed

/-- Attach the summary content to the first batch only
(`if i == 0: payload["content"] = ...`). -/
def mkPayloads (summary : String) : List (List Embed) → List Payload
  | [] => []
  | b :: rest =>
    { username := "TWSE 競價拍賣通知",
      avatar_url := "https://www.twse.com.tw/favicon.ico",
      embeds := b,
      content := some ("📊 **TWSE 競價拍賣資料變動**\n" ++ summary) } ::
    rest.map fun batch =>
      { username := "TWSE 競價拍賣通知",
        avatar_url := "https://www.twse.com.tw/favicon.ico",
        embeds := batch }

/-- `send_discord_notification`, modelled as the list of webhook payloads
actually posted (the HTTP transport is external).  `MAX_EMBEDS = 10`. -/
def send_discord_notification (webhook_url : String)
    (added : List Row) (removed : List Row)
    (changed : List (Row × List (String × String × String))) : List Payload :=
  if webhook_url = "" then []
  else if buildEmbeds added removed changed = [] then []
  else
    mkPayloads
      ("新增 " ++ toString added.length ++ " 筆 ∣ 更新 " ++
        toString changed.length ++ " 筆 ∣ 移除 " ++ toString removed.length ++ " 筆")
      (chunksOf1 9 (buildEmbeds added removed changed))

/-- `parse_date`: `YYYY/MM/DD` via `strptime`, `None` on the `"0"`
sentinel, empty input, or any parse failure. -/
def parse_date (date_str : String) : Option PyDate :=
  if date_str = "" || pyStrip date_str = "0" then none
  else strptimeYMD '/' (pyStrip date_str)

/-- `clean_number`: remove thousands-separator commas. -/
def clean_number (s : String) : String :=
  if s = "" then s else ⟨s.data.filter (fun c => c ≠ ',')⟩

/-- `make_uid`: MD5 of `code-openDate-suffix` plus the `@twse-auction`
tag.  The source indexes `row['證券代號']` and `row['開標日期']` with
brackets, so a missing key raises `KeyError`, modelled as `none`. -/
def make_uid (row : Row) (suffix : String) : Option String :=
  match dget row "證券代號", dget row "開標日期" with
  | some code, some od =>
    some (md5Hex (code ++ "-" ++ od ++ "-" ++ suffix) ++ "@twse-auction")
  | _, _ => none

/-- One VEVENT as built by `build_calendar`: the property values the
script adds to the `icalendar` `Event`. -/
structure ICalEvent where
  summary : String
  dtstart : PyDate
  dtend : PyDate
  description : String
  dtstamp : String
  uid : String
  categories : List String
  status : Option String := none
deriving DecidableEq, Repr

/-- The loop body of `build_calendar` for one row: up to three events
(bid period, open date, listing date).  `none` models the `KeyError`
raised by `make_uid` when an emitted event needs a missing key. -/
def rowEvents (now : String) (row : Row) : Option (List ICalEvent) := do
  let code := pyStrip (dgetD row "證券代號" "")
  let name := pyStrip (dgetD row "證券名稱" "")
  let market := pyStrip (dgetD row "發行市場" "")
  let nature := pyStrip (dgetD row "發行性質" "")
  let method := pyStrip (dgetD row "競拍方式" "")
  let broker := pyStrip (dgetD row "主辦券商" "")
  let cancelled := pyStrip (dgetD row "取消競價拍賣(流標或取消)" "")
  let bid_start := parse_date (dgetD row "投標開始日" "")
  let bid_end := parse_date (dgetD row "投標結束日" "")
  let open_date := parse_date (dgetD row "開標日期" "")
  let listing_date := parse_date (dgetD row "撥券日期(上市、上櫃日期)" "")
  let qty := clean_number (dgetD row "競拍數量(張)" "")
  let min_price := clean_number (dgetD row "最低投標價格(元)" "")
  let deposit_pct := pyStrip (dgetD row "保證金成數(%)" "")
  let fee := clean_number (dgetD row "每一投標單投標處理費(元)" "")
  let status_line := if cancelled ≠ "" then "⚠️ " ++ cancelled else ""
  let description_parts :=
    ["證券代號：" ++ code,
     "證券名稱：" ++ name,
     "發行市場：" ++ market,
     "發行性質：" ++ nature,
     "競拍方式：" ++ method,
     "主辦券商：" ++ broker,
     "競拍數量：" ++ qty ++ " 張",
     "最低投標價格：" ++ min_price ++ " 元",
     "保證金成數：" ++ deposit_pct ++ "%",
     "投標處理費：" ++ fee ++ " 元"] ++
    (match open_date with
     | some d => ["開標日期：" ++ isoformat d]
     | none => []) ++
    (match listing_date with
     | some d => ["撥券日期：" ++ isoformat d]
     | none => []) ++
    (if status_line ≠ "" then [status_line] else []) ++
    ["\n📎 https://www.twse.com.tw/zh/announcement/auction.html"]
  let description := String.intercalate "\n" description_parts
  let cancelled_tag := if cancelled ≠ "" then "【已取消】" else ""
  let status : Option String := if cancelled ≠ "" then some "CANCELLED" else none
  let bidEvts ← match bid_start, bid_end with
    | some bs, some be => do
      let uid ← make_uid row "bid"
      pure [({ summary := cancelled_tag ++ "📋 投標｜" ++ name ++ "（" ++ code ++ "）",
               dtstart := bs, dtend := nextDay be, description := description,
               dtstamp := now, uid := uid,
               categories := ["TWSE競價拍賣", "投標期間"],
               status := status } : ICalEvent)]
    | _, _ => pure []
  let openEvts ← match open_date with
    | some d => do
      let uid ← make_uid row "open"
      pure [({ summary := cancelled_tag ++ "🔔 開標｜" ++ name ++ "（" ++ code ++ "）",
               dtstart := d, dtend := nextDay d, description := description,
               dtstamp := now, uid := uid,
               categories := ["TWSE競價拍賣", "開標日"],
               status := status } : ICalEvent)]
    | none => pure []
  let listEvts ← match listing_date with
    | some d => do
      let uid ← make_uid row "list"
      pure [({ summary := cancelled_tag ++ "🎯 撥券上市櫃｜" ++ name ++ "（" ++ code ++ "）",
               dtstart := d, dtend := nextDay d, description := description,
               dtstamp := now, uid := uid,
               categories := ["TWSE競價拍賣", "撥券日"],
               status := status } : ICalEvent)]
    | none => pure []
  pure (bidEvts ++ openEvts ++ listEvts)

/-- `build_calendar`, as the ordered list of VEVENTs the calendar
receives (`none` models an uncaught `KeyError` from `make_uid`). -/
def build_calendar (now : String) (all_rows : List Row) : Option (List ICalEvent) :=
  (all_rows.mapM (rowEvents now)).map List.flatten

end GC

namespace GT

/-! ### Embedding of `scripts/generate_twse_auction_calendar.py`

The network fetch is external; `build_events`, `render_ics` and the
deduplication step of `fetch_all_events` are modelled.  The generation
timestamp (`datetime.now(timezone.utc).strftime(...)`) is passed in as
the pre-formatted `dtstamp` string. -/

open Util

/-- `SOURCE_PAGE`. -/
def SOURCE_PAGE : String := "https://www.twse.com.tw/zh/announcement/auction.html"

/-- The frozen `CalendarEvent` dataclass. -/
structure CalendarEvent where
  event_date : PyDate
  summary : String
  description : String
  uid : String
deriving DecidableEq, Repr

/-- `EVENT_DATE_FIELDS`: the date-bearing fields and their event types. -/
def EVENT_DATE_FIELDS : List (String × String) :=
  [("投標開始日", "投標開始"),
   ("投標結束日", "投標截止"),
   ("開標日期", "開標"),
   ("撥券日期(上市、上櫃日期)", "撥券/掛牌")]

/-- `parse_twse_date`: sentinels then `%Y/%m/%d`, falling back to
`%Y-%m-%d`. -/
def parse_twse_date (value : String) : Option PyDate :=
  if pyStrip value = "" || pyStrip value = "0" || pyStrip value = "-" ||
      pyStrip value = "--" || pyStrip value = "－" then none
  else
    match strptimeYMD '/' (pyStrip value) with
    | some d => some d
    | none => strptimeYMD '-' (pyStrip value)

/-- `ics_escape`: RFC 5545 TEXT escaping (backslash, `;`, `,`,
newline normalization, then newline → `\n`). -/
def ics_escape (text : String) : String :=
  pyReplace (pyReplace (pyReplace (pyReplace (pyReplace
    (pyReplace text "\\" "\\\\") ";" "\\;") "," "\\,")
    "\r\n" "\n") "\r" "\n") "\n" "\\n"

/-- The folding loop of `fold_ical_line`: split into chunks whose UTF-8
byte length stays within `limit`, never splitting a character.
`current`/`clen` mirror the loop state (`clen` is `current`'s byte
length). -/
def foldCore (limit : Nat) : List Char → List Char → Nat → List (List Char)
  | [], current, _ => [current]
  | ch :: rest, current, clen =>
    if current ≠ [] && clen + chLen ch > limit then
      current :: foldCore limit rest [ch] (chLen ch)
    else foldCore limit rest (current ++ [ch]) (clen + chLen ch)

/-- `fold_ical_line`: the physical lines produced for one logical line —
the first chunk, then each further chunk prefixed with one space. -/
def fold_ical_line (line : String) (limit : Nat := 75) : List String :=
  if line = "" then [""]
  else
    match foldCore limit line.data [] 0 with
    | [] => []
    | p :: rest => (⟨p⟩ : String) :: rest.map fun chunk => (⟨' ' :: chunk⟩ : String)

/-- `normalize_row`: field names zipped with positional values, absent
positions becoming the empty string; values trimmed. -/
def normalize_row (fields : List String) (row : List String) : List (String × String) :=
  dictOfPairs (fields.enum.map fun p => (p.2, pyStrip (row.getD p.1 "")))

/-- `stable_uid`: SHA-1 of the source string plus the fixed domain tag. -/
def stable_uid (source : String) : String :=
  sha1Hex source ++ "@twse-auction-calendar"

/-- `value_or_dash`. -/
def value_or_dash (row : List (String × String)) (key : String) : String :=
  let value := pyStrip (dgetD row key "")
  if value = "" then "-" else value

/-- The loop body of `build_events` for one raw row: one event per
date field that parses. -/
def rowEvents (fields : List String) (raw_row : List String) : List CalendarEvent :=
  let row := normalize_row fields raw_row
  let security_name := value_or_dash row "證券名稱"
  let security_code := value_or_dash row "證券代號"
  let market := value_or_dash row "發行市場"
  let issue_type := value_or_dash row "發行性質"
  let auction_method := value_or_dash row "競拍方式"
  let quantity := value_or_dash row "競拍數量(張)"
  let min_price := value_or_dash row "最低投標價格(元)"
  let min_bid_qty := value_or_dash row "最低每標單投標數量(張)"
  let max_bid_qty := value_or_dash row "最高投(得)標數量(張)"
  let broker := value_or_dash row "主辦券商"
  let bid_start := value_or_dash row "投標開始日"
  let bid_end := value_or_dash row "投標結束日"
  let open_date := value_or_dash row "開標日期"
  let allotment_date := value_or_dash row "撥券日期(上市、上櫃日期)"
  EVENT_DATE_FIELDS.filterMap fun p =>
    match parse_twse_date (dgetD row p.1 "") with
    | none => none
    | some event_date =>
      let event_type := p.2
      let summary := "[TWSE競拍] " ++ security_name ++ "(" ++ security_code ++ ") " ++
        event_type
      let description := String.intercalate "\n"
        ["事件：" ++ event_type,
         "證券名稱：" ++ security_name,
         "證券代號：" ++ security_code,
         "發行市場：" ++ market,
         "發行性質：" ++ issue_type,
         "競拍方式：" ++ auction_method,
         "競拍數量(張)：" ++ quantity,
         "最低投標價格(元)：" ++ min_price,
         "最低每標單投標數量(張)：" ++ min_bid_qty,
         "最高投(得)標數量(張)：" ++ max_bid_qty,
         "主辦券商：" ++ broker,
         "投標開始日：" ++ bid_start,
         "投標結束日：" ++ bid_end,
         "開標日期：" ++ open_date,
         "撥券日期：" ++ allotment_date,
         "資料來源：" ++ SOURCE_PAGE]
      let uid_source := String.intercalate "|"
        [security_code, security_name, event_type, isoformat event_date,
         market, issue_type]
      some { event_date := event_date, summary := summary,
             description := description, uid := stable_uid uid_source }

/-- `build_events` over all rows. -/
def build_events (fields : List String) (rows : List (List String)) :
    List CalendarEvent :=
  rows.flatMap (rowEvents fields)

/-- Strict lexicographic comparison of dates, as CPython compares
`datetime.date` values. -/
def dateTupleLT (a b : PyDate) : Bool :=
  a.year < b.year ||
    (a.year = b.year &&
      (a.month < b.month || (a.month = b.month && a.day < b.day)))

/-- `key a ≤ key b` for the sort key `(event_date, summary, uid)`
(CPython tuple comparison). -/
def sortKeyLE (a b : CalendarEvent) : Bool :=
  dateTupleLT a.event_date b.event_date ||
    (a.event_date = b.event_date &&
      (strLt a.summary b.summary ||
        (a.summary = b.summary && strLe a.uid b.uid)))

/-- `sorted(events, key=lambda e: (e.event_date, e.summary, e.uid))`
(Timsort is a stable ascending sort; every stable ascending sort,
`insertionSort` included, produces the same output). -/
def sortEvents (events : List CalendarEvent) : List CalendarEvent :=
  List.insertionSort (fun a b => sortKeyLE a b = true) events

/-- The logical lines `render_ics` adds for one event, before folding. -/
def rawEventLines (dtstamp : String) (event : CalendarEvent) : List String :=
  ["BEGIN:VEVENT",
   "UID:" ++ event.uid,
   "DTSTAMP:" ++ dtstamp,
   "DTSTART;VALUE=DATE:" ++ fmtYYYYMMDD event.event_date,
   "DTEND;VALUE=DATE:" ++ fmtYYYYMMDD (nextDay event.event_date),
   "SUMMARY:" ++ ics_escape event.summary,
   "DESCRIPTION:" ++ ics_escape event.description,
   "URL:" ++ SOURCE_PAGE,
   "STATUS:CONFIRMED",
   "TRANSP:TRANSPARENT",
   "END:VEVENT"]

/-- The fixed calendar header lines. -/
def headerLines : List String :=
  ["BEGIN:VCALENDAR",
   "VERSION:2.0",
   "PRODID:-//TWSE Auction Calendar//EN",
   "CALSCALE:GREGORIAN",
   "METHOD:PUBLISH",
   "X-WR-CALNAME:TWSE 競價拍賣公告",
   "X-WR-CALDESC:由 TWSE 競價拍賣公告自動產生",
   "X-WR-TIMEZONE:Asia/Taipei"]

/-- All logical lines of the calendar, in emission order. -/
def rawLines (dtstamp : String) (events : List CalendarEvent) : List String :=
  headerLines ++ (sortEvents events).flatMap (rawEventLines dtstamp) ++
    ["END:VCALENDAR"]

/-- `render_ics`: every logical line folded (`add_line`), joined with
CRLF, with a trailing CRLF. -/
def render_ics (dtstamp : String) (events : List CalendarEvent) : String :=
  String.intercalate "\r\n"
    ((rawLines dtstamp events).flatMap fun l => fold_ical_line l) ++ "\r\n"

/-- The deduplication step of `fetch_all_events` (`unique_by_uid`):
a dict keyed by uid, later events overwriting earlier ones. -/
def dedupeByUid (all_events : List CalendarEvent) : List CalendarEvent :=
  (all_events.foldl (fun m e => upsert m e.uid e) []).map (fun p => p.2)

end GT

namespace TA

/-! ### Embedding of `scripts/twse_auction_calendar.py`

The network fetch is external; the row decoding (`fetch_auction_rows`'s
loop body), event building and serialization are modelled.  The
generation timestamp is passed in pre-formatted (the output of
`_ics_dtstamp(dtstamp_utc)`). -/

open Util

/-- `TWSE_AUCTION_PAGE_URL`. -/
def TWSE_AUCTION_PAGE_URL : String :=
  "https://www.twse.com.tw/zh/announcement/auction.html"

/-- The frozen `AuctionRow` dataclass. -/
structure AuctionRow where
  open_date : Option PyDate
  name : String
  code : String
  market : String
  issue_type : String
  auction_method : String
  bid_start : Option PyDate
  bid_end : Option PyDate
  quantity_lot : String
  min_bid_price : String
  min_bid_lot : String
  max_award_lot : String
  margin_rate_pct : String
  handling_fee : String
  allotment_date : Option PyDate
  lead_underwriter : String
  cancel_reason : String
deriving DecidableEq, Repr

/-- `_parse_twse_date`: sentinels, then `int()` of the three
slash-separated components, then `datetime.date` validation;
any failure yields `None`. -/
def _parse_twse_date (s : String) : Option PyDate :=
  if pyStrip s = "" || pyStrip s = "0" || pyStrip s = "-" ||
      pyStrip s = "--" || pyStrip s = "N/A" then none
  else
    match (splitOnChar '/' (pyStrip s)).map fun cs => pyInt (⟨cs⟩ : String) with
    | [some y, some m, some d] =>
      if 1 ≤ y ∧ y ≤ 9999 ∧ 1 ≤ m ∧ m ≤ 12 ∧ 1 ≤ d ∧
          d ≤ (daysInMonth y.toNat m.toNat : Int) then
        some ⟨y.toNat, m.toNat, d.toNat⟩
      else none
    | _ => none

/-- The loop body of `fetch_auction_rows`: build one `AuctionRow` from a
positional data row via the accessor `g` (absent positions give
the empty string). -/
def auctionRowOfData (r : List String) : AuctionRow :=
  let g := fun (i : Nat) => pyStrip (r.getD i "")
  { open_date := _parse_twse_date (g 1),
    name := g 2,
    code := g 3,
    market := g 4,
    issue_type := g 5,
    auction_method := g 6,
    bid_start := _parse_twse_date (g 7),
    bid_end := _parse_twse_date (g 8),
    quantity_lot := g 9,
    min_bid_price := g 10,
    min_bid_lot := g 11,
    max_award_lot := g 12,
    margin_rate_pct := g 13,
    handling_fee := g 14,
    allotment_date := _parse_twse_date (g 15),
    lead_underwriter := g 16,
    cancel_reason := g 25 }

/-- `_ics_escape_text`: RFC 5545 TEXT escaping (backslash, newline
normalization, newline → `\n`, then `;` and `,`). -/
def _ics_escape_text (s : String) : String :=
  pyReplace (pyReplace (pyReplace (pyReplace (pyReplace
    (pyReplace s "\\" "\\\\") "\r\n" "\n") "\r" "\n")
    "\n" "\\n") ";" "\\;") "," "\\,"

/-- Fuel-driven worker for the `while` loop of `_ics_fold_line`
(structural so that the kernel can evaluate it; each step shortens the
text by 72 characters, so fuel starting at the length never runs out). -/
def icsFoldGo : Nat → List Char → List (List Char)
  | 0, cur => [cur]
  | fuel + 1, cur =>
    if cur.length ≤ 73 then [cur]
    else cur.take 73 :: icsFoldGo fuel (' ' :: cur.drop 73)

/-- The `while` loop of `_ics_fold_line`: chunks of 73 characters, the
remainder after each cut getting a space prepended before the next cut.
Measures characters, not octets (the source's own comment: "we fold
conservatively by characters"). -/
def icsFoldCore (cur : List Char) : List (List Char) :=
  icsFoldGo cur.length cur

/-- `_ics_fold_line`, as the list of physical lines (the source joins
them with CRLF; `build_ics_calendar` re-joins everything with CRLF, so
the physical-line view is equivalent). -/
def _ics_fold_line (line : String) : List String :=
  (icsFoldCore line.data).map fun cs => (⟨cs⟩ : String)

/-- `_ics_date`: `%Y%m%d`. -/
def _ics_date (d : PyDate) : String := fmtYYYYMMDD d

/-- `_event_uid`: no hash — the prefix, kind, code and the event's own
date, with the `@twse.com.tw` tag. -/
def _event_uid (pfx : String) (row : AuctionRow) (when : PyDate) (kind : String) :
    String :=
  let safe_code := if row.code = "" then "UNKNOWN" else row.code
  pfx ++ "-" ++ kind ++ "-" ++ safe_code ++ "-" ++ fmtYYYYMMDD when ++ "@twse.com.tw"

/-- `_build_all_day_event`: the VEVENT lines for one all-day event
(status line only when `status` is a non-empty string). -/
def _build_all_day_event (uid dtstampStr : String) (date : PyDate)
    (summary description url : String) (status : Option String) : List String :=
  ["BEGIN:VEVENT",
   "UID:" ++ _ics_escape_text uid,
   "DTSTAMP:" ++ dtstampStr,
   "DTSTART;VALUE=DATE:" ++ _ics_date date,
   "DTEND;VALUE=DATE:" ++ _ics_date (nextDay date),
   "SUMMARY:" ++ _ics_escape_text summary,
   "DESCRIPTION:" ++ _ics_escape_text description,
   "URL:" ++ _ics_escape_text url,
   "TRANSP:TRANSPARENT"] ++
  (match status with
   | some st => if st = "" then [] else ["STATUS:" ++ st]
   | none => []) ++
  ["END:VEVENT"]

/-- `_row_common_description`. -/
def _row_common_description (row : AuctionRow) : String :=
  String.intercalate "\n"
    (["證券名稱：" ++ row.name,
      "證券代號：" ++ row.code,
      "發行市場：" ++ row.market,
      "發行性質：" ++ row.issue_type,
      "競拍方式：" ++ row.auction_method,
      "競拍數量(張)：" ++ row.quantity_lot,
      "最低投標價格(元)：" ++ row.min_bid_price,
      "最低每標單投標數量(張)：" ++ row.min_bid_lot,
      "最高投(得)標數量(張)：" ++ row.max_award_lot,
      "保證金成數(%)：" ++ row.margin_rate_pct,
      "每一投標單投標處理費(元)：" ++ row.handling_fee,
      "主辦券商：" ++ row.lead_underwriter] ++
     (if row.cancel_reason ≠ "" then
       ["取消競價拍賣：" ++ row.cancel_reason]
      else []) ++
     ["資料來源：" ++ TWSE_AUCTION_PAGE_URL])

/-- The local `add` closure of `rows_to_ics_events` for one event kind. -/
def addEvent (pfx tsStr : String) (row : AuctionRow) (common_desc : String)
    (status : Option String) (base_title : String) (kind : String)
    (when : Option PyDate) (suffix : String) (extra : Option String) :
    List String :=
  match when with
  | none => []
  | some w =>
    let desc :=
      match extra with
      | some e => if e = "" then common_desc else e ++ "\n\n" ++ common_desc
      | none => common_desc
    _build_all_day_event (_event_uid pfx row w kind) tsStr w
      (base_title ++ " " ++ suffix) desc TWSE_AUCTION_PAGE_URL status

/-- The loop body of `rows_to_ics_events` for one row: up to four
events (bid start, bid end, open, allotment). -/
def rowEvents (pfx tsStr : String) (row : AuctionRow) : List String :=
  let base_title := "競價拍賣：" ++ row.name ++ "(" ++ row.code ++ ")"
  let common_desc := _row_common_description row
  let status : Option String :=
    if row.cancel_reason ≠ "" then some "CANCELLED" else none
  let bid_range : Option String :=
    match row.bid_start, row.bid_end with
    | some bs, some be =>
      some ("投標期間：" ++ fmtSlash bs ++ " ~ " ++ fmtSlash be)
    | _, _ => none
  addEvent pfx tsStr row common_desc status base_title "BIDSTART" row.bid_start
    "投標開始" bid_range ++
  addEvent pfx tsStr row common_desc status base_title "BIDEND" row.bid_end
    "投標結束" bid_range ++
  addEvent pfx tsStr row common_desc status base_title "OPEN" row.open_date
    "開標日" bid_range ++
  addEvent pfx tsStr row common_desc status base_title "ALLOT" row.allotment_date
    "撥券/上市(櫃)日" bid_range

/-- `rows_to_ics_events`: the flat list of VEVENT lines of all rows. -/
def rows_to_ics_events (pfx : String) (rows : List AuctionRow) (tsStr : String) :
    List String :=
  rows.flatMap (rowEvents pfx tsStr)

/-- `build_ics_calendar`: header, events and footer, each line folded,
joined with CRLF, trailing CRLF (the `dtstamp_utc` argument is unused
in the source body and omitted here). -/
def build_ics_calendar (cal_name : String) (events : List String) : String :=
  let header :=
    ["BEGIN:VCALENDAR",
     "VERSION:2.0",
     "CALSCALE:GREGORIAN",
     "METHOD:PUBLISH",
     "PRODID:-//twse-auction-calendar//twse-auction-calendar//ZH-HANT",
     "X-WR-CALNAME:" ++ _ics_escape_text cal_name,
     "X-WR-TIMEZONE:Asia/Taipei",
     "X-PUBLISHED-TTL:PT6H"]
  let footer := ["END:VCALENDAR"]
  let lines := header ++ events ++ footer
  String.intercalate "\r\n" (lines.flatMap _ics_fold_line) ++ "\r\n"

end TA

/-! ### Statement-support definitions -/

/-- Reconstitute a folded logical line: keep the first physical line,
strip the single leading fold character from every continuation line,
and concatenate. -/
def Util.unfoldPhysical : List String → String
  | [] => ""
  | l :: rest =>
    l ++ String.join (rest.map fun c => (⟨c.data.drop 1⟩ : String))

/-- The last element of a list carrying the given key, if any. -/
def Util.lastWith (key : β → String) (u : String) : List β → Option β
  | [] => none
  | e :: rest =>
    match lastWith key u rest with
    | some x => some x
    | none => if key e = u then some e else none

/-- The sort-key data of an event, as a plain tuple. -/
def GT.tupleKey (e : GT.CalendarEvent) : Nat × Nat × Nat × String × String :=
  (e.event_date.year, e.event_date.month, e.event_date.day, e.summary, e.uid)

/-- The TWSE field-name list, in API column order (the keys of
`FIELD_LABELS`). -/
def twseFields : List String := GC.FIELD_LABELS.map (fun p => p.1)

/-- Sample data row: security 91027 「甲」, open date 2025/06/10, every
other date field empty. -/
def rowA : List String := ["1", "2025/06/10", "甲", "91027", "上市", "初次上市"]

/-- `rowA` with only the security name edited (「乙」). -/
def rowB : List String := ["1", "2025/06/10", "乙", "91027", "上市", "初次上市"]

/-- `rowA` extended to the full column count with a non-empty
cancellation reason (流標) in column 25. -/
def rowCancelled : List String :=
  ["1", "2025/06/10", "甲", "91027", "上市", "初次上市", "競價",
   "-", "-", "-", "-", "-", "-", "-", "-", "-", "-", "-", "-", "-",
   "-", "-", "-", "-", "-", "流標"]

/-- A 26-character CJK logical line: 78 octets in UTF-8, 26 characters. -/
def cjkLine : String := "每每每每每每每每每每每每每每每每每每每每每每每每每每"

/-- An event with a duplicated sort key (same date, summary, uid as
`dupEventB`) but distinct description. -/
def dupEventA : GT.CalendarEvent :=
  { event_date := ⟨2025, 6, 10⟩, summary := "S", description := "A", uid := "U" }

/-- Same sort key as `dupEventA`, different description. -/
def dupEventB : GT.CalendarEvent :=
  { event_date := ⟨2025, 6, 10⟩, summary := "S", description := "B", uid := "U" }

/-- An event whose sort key differs from `dupEventA`'s in every
component. -/
def soloEventC : GT.CalendarEvent :=
  { event_date := ⟨2025, 6, 11⟩, summary := "T", description := "C", uid := "V" }

/-- Positional data row for `twse_auction_calendar.py`: open date
2025/06/12, security 91027 「甲」, all other date fields absent. -/
def rowOpenLate : List String := ["1", "2025/06/12", "甲", "91027"]

/-- Positional data row with the earlier open date 2025/06/10,
security 91028 「乙」. -/
def rowOpenEarly : List String := ["2", "2025/06/10", "乙", "91028"]


/-!
Helper lemmas.
-/

namespace Util

theorem chLen_pos (c : Char) : 0 < chLen c := by
  simp only [chLen, utf8Bytes]
  split
  · simp
  · split
    · simp
    · split <;> simp

theorem chLen_le_four (c : Char) : chLen c ≤ 4 := by
  simp only [chLen, utf8Bytes]
  split
  · simp
  · split
    · simp
    · split <;> simp

theorem chunksGo_flatten (n : Nat) :
    ∀ (fuel : Nat) (l : List α), l.length ≤ fuel →
      (chunksGo n fuel l).flatten = l := by
  intro fuel
  induction fuel with
  | zero =>
    intro l h
    cases l with
    | nil => simp [chunksGo]
    | cons a r => simp at h
  | succ f ih =>
    intro l h
    cases l with
    | nil => simp [chunksGo]
    | cons a r =>
      simp only [chunksGo, List.flatten_cons]
      rw [ih (r.drop n) (by simp at h ⊢; omega)]
      simp [List.take_append_drop]

theorem chunksGo_mem (n : Nat) :
    ∀ (fuel : Nat) (l : List α) (c : List α), l.length ≤ fuel →
      c ∈ chunksGo n fuel l → c.length ≤ n + 1 ∧ c ≠ [] := by
  intro fuel
  induction fuel with
  | zero =>
    intro l c h hc
    cases l with
    | nil => simp [chunksGo] at hc
    | cons a r => simp at h
  | succ f ih =>
    intro l c h hc
    cases l with
    | nil => simp [chunksGo] at hc
    | cons a r =>
      simp only [chunksGo, List.mem_cons] at hc
      rcases hc with rfl | hc
      · refine ⟨?_, by simp⟩
        simp only [List.length_cons, List.length_take]
        omega
      · exact ih (r.drop n) c (by simp at h ⊢; omega) hc

theorem chunksOf1_flatten (n : Nat) (l : List α) : (chunksOf1 n l).flatten = l :=
  chunksGo_flatten n l.length l le_rfl

theorem chunksOf1_mem (n : Nat) (l c : List α) (h : c ∈ chunksOf1 n l) :
    c.length ≤ n + 1 ∧ c ≠ [] :=
  chunksGo_mem n l.length l c le_rfl h

theorem dget_eq_none_iff (m : List (String × α)) (k : String) :
    dget m k = none ↔ m.any (fun p => p.1 = k) = false := by
  simp [dget, List.find?_eq_none, List.any_eq_false]

end Util

namespace Util

theorem dget_map_replace (m : List (String × α)) (k : String) (v : α) :
    dget (m.map fun p => if p.1 = k then (k, v) else p) k =
      if m.any (fun p => p.1 = k) then some v else none := by
  induction m with
  | nil => simp [dget]
  | cons p rest ih =>
    simp only [List.map_cons, dget, List.any_cons]
    by_cases hp : p.1 = k
    · rw [if_pos hp, List.find?_cons_of_pos _ (by simp)]
      simp [hp]
    · rw [if_neg hp, List.find?_cons_of_neg _ (by simp [hp])]
      simp only [dget] at ih
      rw [ih]
      have hd : decide (p.1 = k) = false := by simp [hp]
      simp only [hd, Bool.false_or]

theorem dget_map_replace_ne (m : List (String × α)) (k : String) (v : α)
    (q : String) (h : q ≠ k) :
    dget (m.map fun p => if p.1 = k then (k, v) else p) q = dget m q := by
  induction m with
  | nil => simp
  | cons p rest ih =>
    simp only [List.map_cons, dget]
    by_cases hp : p.1 = k
    · have hkq : ¬ (k = q) := fun hh => h hh.symm
      have hpq : ¬ (p.1 = q) := by rw [hp]; exact hkq
      rw [if_pos hp, List.find?_cons_of_neg _ (by simp [hkq]),
        List.find?_cons_of_neg _ (by simp [hpq])]
      simpa only [dget] using ih
    · by_cases hpq : p.1 = q
      · rw [if_neg hp, List.find?_cons_of_pos _ (by simp [hpq]),
          List.find?_cons_of_pos _ (by simp [hpq])]
      · rw [if_neg hp, List.find?_cons_of_neg _ (by simp [hpq]),
          List.find?_cons_of_neg _ (by simp [hpq])]
        simpa only [dget] using ih

theorem dget_append (m₁ m₂ : List (String × α)) (k : String) :
    dget (m₁ ++ m₂) k =
      match dget m₁ k with
      | some v => some v
      | none => dget m₂ k := by
  induction m₁ with
  | nil => simp [dget]
  | cons p rest ih =>
    by_cases hp : p.1 = k
    · simp [dget, List.find?, hp]
    · simpa [dget, List.find?, hp] using ih

theorem dget_upsert_self (m : List (String × α)) (k : String) (v : α) :
    dget (upsert m k v) k = some v := by
  unfold upsert
  split
  · rw [dget_map_replace]
    simp [*]
  · rename_i hany
    have hnone : dget m k = none :=
      (dget_eq_none_iff m k).2 (by rwa [Bool.not_eq_true] at hany)
    rw [dget_append, hnone]
    simp [dget, List.find?]

theorem dget_upsert_ne (m : List (String × α)) (k : String) (v : α)
    (q : String) (h : q ≠ k) :
    dget (upsert m k v) q = dget m q := by
  unfold upsert
  split
  · exact dget_map_replace_ne m k v q h
  · rw [dget_append]
    have hkq : ¬ k = q := fun hh => h hh.symm
    have hone : dget [(k, v)] q = none := by
      simp [dget, List.find?, hkq]
    cases hm : dget m q <;> simp [hone]

theorem keys_upsert (m : List (String × α)) (k : String) (v : α) :
    dictKeys (upsert m k v) =
      if m.any (fun p => p.1 = k) then dictKeys m else dictKeys m ++ [k] := by
  unfold upsert
  split <;> rename_i hany
  · simp only [hany, if_true, dictKeys, List.map_map]
    apply List.map_congr_left
    intro p _
    by_cases hp : p.1 = k <;> simp [hp]
  · simp [hany, dictKeys]

theorem keys_upsert_nodup (m : List (String × α)) (k : String) (v : α)
    (h : (dictKeys m).Nodup) : (dictKeys (upsert m k v)).Nodup := by
  rw [keys_upsert]
  split <;> rename_i hany
  · exact h
  · have hk : k ∉ dictKeys m := by
      intro hmem
      rcases List.mem_map.1 hmem with ⟨p, hp, hpk⟩
      rw [Bool.not_eq_true, List.any_eq_false] at hany
      have hnk := hany p hp
      simp only [decide_eq_true_eq] at hnk
      exact hnk hpk
    simp [List.nodup_append, h, hk]

theorem mem_upsert (m : List (String × α)) (k : String) (v : α)
    (p : String × α) (h : p ∈ upsert m k v) : p = (k, v) ∨ p ∈ m := by
  unfold upsert at h
  split at h
  · rcases List.mem_map.1 h with ⟨q, hq, rfl⟩
    by_cases hqk : q.1 = k
    · left
      simp [hqk]
    · right
      simp only [hqk, if_false]
      exact hq
  · rcases List.mem_append.1 h with h | h
    · right
      exact h
    · left
      simpa using h

theorem foldl_upsert_dget (key : β → String) :
    ∀ (evs : List β) (m : List (String × β)) (u : String),
      dget (evs.foldl (fun acc e => upsert acc (key e) e) m) u =
        match lastWith key u evs with
        | some x => some x
        | none => dget m u := by
  intro evs
  induction evs with
  | nil => simp [lastWith]
  | cons e rest ih =>
    intro m u
    simp only [List.foldl_cons, lastWith]
    rw [ih]
    cases hl : lastWith key u rest with
    | some x => simp
    | none =>
      simp only
      by_cases hk : key e = u
      · subst hk
        simp [dget_upsert_self]
      · rw [if_neg hk, dget_upsert_ne _ _ _ _ (fun hh => hk hh.symm)]

theorem foldl_upsert_keys_nodup (key : β → String) :
    ∀ (evs : List β) (m : List (String × β)),
      (dictKeys m).Nodup →
      (dictKeys (evs.foldl (fun acc e => upsert acc (key e) e) m)).Nodup := by
  intro evs
  induction evs with
  | nil => intro m h; exact h
  | cons e rest ih =>
    intro m h
    exact ih _ (keys_upsert_nodup _ _ _ h)

theorem foldl_upsert_mem (key : β → String) :
    ∀ (evs : List β) (m : List (String × β)) (p : String × β),
      p ∈ evs.foldl (fun acc e => upsert acc (key e) e) m →
      (p.1 = key p.2 ∧ p.2 ∈ evs) ∨ p ∈ m := by
  intro evs
  induction evs with
  | nil => intro m p h; right; exact h
  | cons e rest ih =>
    intro m p h
    rcases ih _ p h with ⟨h1, h2⟩ | h
    · left
      exact ⟨h1, List.mem_cons_of_mem _ h2⟩
    · rcases mem_upsert _ _ _ _ h with rfl | h
      · left
        exact ⟨rfl, List.mem_cons_self _ _⟩
      · right
        exact h

theorem lastWith_isSome (key : β → String) (u : String) :
    ∀ (evs : List β), (∃ e ∈ evs, key e = u) → (lastWith key u evs).isSome := by
  intro evs
  induction evs with
  | nil => rintro ⟨e, he, _⟩; simp at he
  | cons e rest ih =>
    rintro ⟨x, hx, hxu⟩
    simp only [lastWith]
    cases hl : lastWith key u rest with
    | some y => simp
    | none =>
      rcases List.mem_cons.1 hx with rfl | hx
      · simp [hxu]
      · have := ih ⟨x, hx, hxu⟩
        rw [hl] at this
        simp at this


theorem lexLt_asymm : ∀ as bs, lexLt as bs = true → lexLt bs as = true → False := by
  intro as
  induction as with
  | nil =>
    intro bs h1 h2
    cases bs with
    | nil => simp [lexLt] at h1
    | cons b bs => simp [lexLt] at h2
  | cons a as ih =>
    intro bs h1 h2
    cases bs with
    | nil => simp [lexLt] at h1
    | cons b bs =>
      simp only [lexLt] at h1 h2
      rcases lt_trichotomy a b with h | h | h
      · simp [h, lt_asymm h] at h2
      · subst h
        simp [lt_irrefl] at h1 h2
        exact ih bs h1 h2
      · simp [h, lt_asymm h] at h1

theorem lexLt_trans :
    ∀ as bs cs, lexLt as bs = true → lexLt bs cs = true → lexLt as cs = true := by
  intro as
  induction as with
  | nil =>
    intro bs cs h1 h2
    cases bs with
    | nil => simp [lexLt] at h1
    | cons b bs =>
      cases cs with
      | nil => simp [lexLt] at h2
      | cons c cs => simp [lexLt]
  | cons a as ih =>
    intro bs cs h1 h2
    cases bs with
    | nil => simp [lexLt] at h1
    | cons b bs =>
      cases cs with
      | nil => simp [lexLt] at h2
      | cons c cs =>
        simp only [lexLt] at h1 h2 ⊢
        rcases lt_trichotomy a b with hab | hab | hab
        · rcases lt_trichotomy b c with hbc | hbc | hbc
          · simp [lt_trans hab hbc]
          · subst hbc
            simp [hab]
          · simp [hbc, lt_asymm hbc] at h2
        · subst hab
          simp [lt_irrefl] at h1
          rcases lt_trichotomy a c with hac | hac | hac
          · simp [hac]
          · subst hac
            simp [lt_irrefl] at h2 ⊢
            exact ih bs cs h1 h2
          · simp [hac, lt_asymm hac] at h2
        · simp [hab, lt_asymm hab] at h1

theorem lexLt_connex : ∀ as bs, as ≠ bs → lexLt as bs = true ∨ lexLt bs as = true := by
  intro as
  induction as with
  | nil =>
    intro bs h
    cases bs with
    | nil => exact absurd rfl h
    | cons b bs => left; simp [lexLt]
  | cons a as ih =>
    intro bs h
    cases bs with
    | nil => right; simp [lexLt]
    | cons b bs =>
      rcases lt_trichotomy a b with hab | hab | hab
      · left
        simp [lexLt, hab]
      · subst hab
        have hne : as ≠ bs := fun hh => h (by rw [hh])
        rcases ih bs hne with hl | hl
        · left
          simp [lexLt, lt_irrefl, hl]
        · right
          simp [lexLt, lt_irrefl, hl]
      · right
        simp [lexLt, hab]

theorem strLe_total (a b : String) : strLe a b = true ∨ strLe b a = true := by
  by_cases h : strLt b a = true
  · right
    by_cases h2 : strLt a b = true
    · exact absurd (lexLt_asymm _ _ h h2) (fun f => f)
    · simp [strLe, h2]
  · left
    simp [strLe, h]

theorem strLe_trans (a b c : String)
    (h1 : strLe a b = true) (h2 : strLe b c = true) : strLe a c = true := by
  simp only [strLe, strLt, Bool.not_eq_true'] at h1 h2 ⊢
  by_contra hca
  have hca : lexLt c.data a.data = true := by
    cases hc : lexLt c.data a.data
    · exact absurd hc hca
    · rfl
  by_cases hab : a.data = b.data
  · rw [hab] at hca
    rw [hca] at h2
    exact Bool.noConfusion h2
  · rcases lexLt_connex a.data b.data hab with hl | hl
    · have := lexLt_trans _ _ _ hca hl
      rw [this] at h2
      exact Bool.noConfusion h2
    · rw [hl] at h1
      exact Bool.noConfusion h1

theorem strLe_antisymm (a b : String)
    (h1 : strLe a b = true) (h2 : strLe b a = true) : a = b := by
  simp only [strLe, strLt, Bool.not_eq_true'] at h1 h2
  by_cases hab : a.data = b.data
  · exact congrArg String.mk hab
  · rcases lexLt_connex a.data b.data hab with hl | hl
    · rw [hl] at h2
      exact Bool.noConfusion h2
    · rw [hl] at h1
      exact Bool.noConfusion h1

theorem mem_sortStr (a : String) (l : List String) : a ∈ sortStr l ↔ a ∈ l :=
  List.mem_insertionSort _

theorem mem_dedupFirst_aux (l : List String) :
    ∀ (acc : List String) (a : String),
      a ∈ l.foldl (fun acc k => if acc.contains k then acc else acc ++ [k]) acc ↔
        a ∈ acc ∨ a ∈ l := by
  induction l with
  | nil => intro acc a; simp
  | cons x xs ih =>
    intro acc a
    simp only [List.foldl_cons]
    by_cases hx : acc.contains x
    · rw [if_pos hx, ih]
      constructor
      · rintro (h | h)
        · exact Or.inl h
        · exact Or.inr (List.mem_cons_of_mem _ h)
      · rintro (h | h)
        · exact Or.inl h
        · rcases List.mem_cons.1 h with rfl | h
          · exact Or.inl (by simpa using hx)
          · exact Or.inr h
    · rw [if_neg hx, ih]
      constructor
      · rintro (h | h)
        · rcases List.mem_append.1 h with h | h
          · exact Or.inl h
          · simp at h
            subst h
            exact Or.inr (List.mem_cons_self _ _)
        · exact Or.inr (List.mem_cons_of_mem _ h)
      · rintro (h | h)
        · exact Or.inl (List.mem_append.2 (Or.inl h))
        · rcases List.mem_cons.1 h with rfl | h
          · exact Or.inl (List.mem_append.2 (Or.inr (by simp)))
          · exact Or.inr h

theorem mem_dedupFirst (a : String) (l : List String) :
    a ∈ dedupFirst l ↔ a ∈ l := by
  rw [dedupFirst, mem_dedupFirst_aux]
  simp

theorem dget_isSome_iff_mem_keys (m : List (String × α)) (k : String) :
    (dget m k).isSome = true ↔ k ∈ dictKeys m := by
  constructor
  · intro h
    cases hf : List.find? (fun p => decide (p.1 = k)) m with
    | none =>
      rw [dget, hf] at h
      simp at h
    | some p =>
      have hm := List.mem_of_find?_eq_some hf
      have hk := List.find?_some hf
      simp only [decide_eq_true_eq] at hk
      exact hk ▸ List.mem_map_of_mem _ hm
  · intro h
    rcases List.mem_map.1 h with ⟨p, hp, rfl⟩
    have hs : (List.find? (fun p2 => decide (p2.1 = p.1)) m).isSome = true :=
      List.find?_isSome.2 ⟨p, hp, by simp⟩
    rw [dget]
    cases hf : List.find? (fun p2 => decide (p2.1 = p.1)) m with
    | none =>
      rw [hf] at hs
      simp at hs
    | some q => simp

end Util

theorem Util.dget_some_mem (m : List (String × α)) (k : String) (v : α)
    (h : Util.dget m k = some v) : (k, v) ∈ m := by
  rw [Util.dget] at h
  cases hf : List.find? (fun p => decide (p.1 = k)) m with
  | none =>
    rw [hf] at h
    simp at h
  | some p =>
    rw [hf] at h
    simp at h
    have hm := List.mem_of_find?_eq_some hf
    have hk := List.find?_some hf
    simp only [decide_eq_true_eq] at hk
    have : p = (k, v) := by
      cases p
      simp_all
    exact this ▸ hm

theorem GC.mkPayloads_map_embeds (s : String) (chs : List (List GC.Embed)) :
    (GC.mkPayloads s chs).map (fun p => p.embeds) = chs := by
  cases chs with
  | nil => rfl
  | cons b rest => simp [GC.mkPayloads, List.map_map, Function.comp_def]

theorem GC.mkPayloads_flatMap_embeds (s : String) (chs : List (List GC.Embed)) :
    (GC.mkPayloads s chs).flatMap (fun p => p.embeds) = chs.flatten := by
  conv_rhs => rw [← GC.mkPayloads_map_embeds s chs]
  rw [List.flatMap_def]

theorem GC.mkPayloads_mem_embeds (s : String) (chs : List (List GC.Embed))
    (p : GC.Payload) (h : p ∈ GC.mkPayloads s chs) : p.embeds ∈ chs := by
  cases chs with
  | nil => simp [GC.mkPayloads] at h
  | cons b rest =>
    simp only [GC.mkPayloads, List.mem_cons] at h
    rcases h with rfl | h
    · exact List.mem_cons_self _ _
    · rcases List.mem_map.1 h with ⟨batch, hb, rfl⟩
      exact List.mem_cons_of_mem _ hb

theorem GC.mkPayloads_content (s : String) (chs : List (List GC.Embed))
    (i : Nat) (h : i < (GC.mkPayloads s chs).length) :
    ((GC.mkPayloads s chs)[i]).content.isSome ↔ i = 0 := by
  cases chs with
  | nil => simp [GC.mkPayloads] at h
  | cons b rest =>
    cases i with
    | zero => simp [GC.mkPayloads]
    | succ j =>
      have hj : j < rest.length := by
        simpa [GC.mkPayloads] using h
      simp [GC.mkPayloads, List.getElem_cons_succ, List.getElem_map]

/-- C9: with a configured webhook, the notification formatter splits its
embed list into consecutive chunks of at most 10 per dispatch, every
embed appears in exactly one chunk in the original order, the summary
content is attached only to the first dispatch, and an empty diff
produces no dispatch at all. -/
theorem c9_notification_chunking (url : String) (added removed : List GC.Row)
    (changed : List (GC.Row × List (String × String × String)))
    (hurl : url ≠ "") :
    ((GC.send_discord_notification url added removed changed).flatMap
        (fun p => p.embeds) = GC.buildEmbeds added removed changed) ∧
    (∀ p ∈ GC.send_discord_notification url added removed changed,
      p.embeds.length ≤ 10 ∧ p.embeds ≠ []) ∧
    (∀ i (h : i < (GC.send_discord_notification url added removed changed).length),
      ((GC.send_discord_notification url added removed changed)[i]).content.isSome
        ↔ i = 0) ∧
    ((added = [] ∧ removed = [] ∧ changed = []) →
      GC.send_discord_notification url added removed changed = []) := by
  unfold GC.send_discord_notification
  rw [if_neg hurl]
  by_cases hemb : GC.buildEmbeds added removed changed = []
  · rw [if_pos hemb]
    refine ⟨by simp [hemb], by simp, by simp, fun _ => rfl⟩
  · rw [if_neg hemb]
    refine ⟨?_, ?_, ?_, ?_⟩
    · rw [GC.mkPayloads_flatMap_embeds, Util.chunksOf1_flatten]
    · intro p hp
      have := GC.mkPayloads_mem_embeds _ _ p hp
      exact Util.chunksOf1_mem 9 _ _ this
    · intro i h
      exact GC.mkPayloads_content _ _ i h
    · rintro ⟨rfl, rfl, rfl⟩
      exact absurd rfl hemb

/-- Witness for C9 at a concrete one-row diff. -/
theorem c9_witness :
    (GC.send_discord_notification "https://example.invalid/webhook"
        [[("證券名稱", "甲"), ("證券代號", "91027")]] [] []).flatMap
      (fun p => p.embeds) =
      GC.buildEmbeds [[("證券名稱", "甲"), ("證券代號", "91027")]] [] [] :=
  (c9_notification_chunking "https://example.invalid/webhook"
    [[("證券名稱", "甲"), ("證券代號", "91027")]] [] [] (by decide)).1

/-- C10: `fetch_all_events` deduplicates events by uid before
serialization: the returned list contains at most one event per uid,
every returned event comes from the input, and for each input uid the
kept event is the last event with that uid in derivation order (the
earlier ones are dropped). -/
theorem c10_dedupe_by_uid (evs : List GT.CalendarEvent) :
    ((GT.dedupeByUid evs).map (fun e => e.uid)).Nodup ∧
    (∀ e ∈ GT.dedupeByUid evs, e ∈ evs) ∧
    (∀ u ∈ evs.map (fun e => e.uid),
      ∃ e ∈ GT.dedupeByUid evs,
        Util.lastWith (fun x => x.uid) u evs = some e) := by
  have hcoh : ∀ p ∈ evs.foldl (fun m e => Util.upsert m e.uid e) [],
      p.1 = p.2.uid ∧ p.2 ∈ evs := by
    intro p hp
    rcases Util.foldl_upsert_mem (fun e => e.uid) evs [] p hp with ⟨h1, h2⟩ | h
    · exact ⟨h1, h2⟩
    · simp at h
  refine ⟨?_, ?_, ?_⟩
  · have hkeys :
        (Util.dictKeys (evs.foldl (fun m e => Util.upsert m e.uid e) [])).Nodup :=
      Util.foldl_upsert_keys_nodup (fun e => e.uid) evs [] (by simp [Util.dictKeys])
    have hmap :
        (GT.dedupeByUid evs).map (fun e => e.uid) =
          Util.dictKeys (evs.foldl (fun m e => Util.upsert m e.uid e) []) := by
      rw [GT.dedupeByUid, List.map_map, Util.dictKeys]
      exact List.map_congr_left (fun p hp => ((hcoh p hp).1).symm)
    rw [hmap]
    exact hkeys
  · intro e he
    rcases List.mem_map.1 he with ⟨p, hp, rfl⟩
    exact (hcoh p hp).2
  · intro u hu
    rcases List.mem_map.1 hu with ⟨x, hx, hxu⟩
    have hsome := Util.lastWith_isSome (fun e => e.uid) u evs ⟨x, hx, hxu⟩
    rcases Option.isSome_iff_exists.1 hsome with ⟨e, he⟩
    refine ⟨e, ?_, he⟩
    have hdget :
        Util.dget (evs.foldl (fun m e => Util.upsert m e.uid e) []) u = some e := by
      rw [Util.foldl_upsert_dget (fun e => e.uid) evs [] u, he]
    have := Util.dget_some_mem _ u e hdget
    exact List.mem_map.2 ⟨(u, e), this, rfl⟩

/-- Witness for C10: two events with the same uid; the later one is kept. -/
theorem c10_witness :
    ∃ e ∈ GT.dedupeByUid [dupEventA, dupEventB],
      Util.lastWith (fun x => x.uid) "U" [dupEventA, dupEventB] = some e :=
  (c10_dedupe_by_uid [dupEventA, dupEventB]).2.2 "U" (by decide)

theorem parse_date_dget_isSome (row : GC.Row) (k : String) (d : Util.PyDate)
    (h : GC.parse_date (Util.dgetD row k "") = some d) :
    (Util.dget row k).isSome := by
  cases hg : Util.dget row k with
  | none =>
    rw [Util.dgetD, hg] at h
    simp [GC.parse_date] at h
  | some v => rfl

/-- C8: every derived all-day event uses the exclusive-end convention:
the serialized end date is the start date plus one day for single-day
events, and the bid-period event of `build_calendar` runs from
`bid_start` to `bid_end` plus one day. -/
theorem c8_exclusive_end :
    (∀ (ts : String) (e : GT.CalendarEvent),
      (GT.rawEventLines ts e)[3]? =
          some ("DTSTART;VALUE=DATE:" ++ Util.fmtYYYYMMDD e.event_date) ∧
      (GT.rawEventLines ts e)[4]? =
          some ("DTEND;VALUE=DATE:" ++
            Util.fmtYYYYMMDD (Util.nextDay e.event_date))) ∧
    (∀ (uid ts : String) (d : Util.PyDate) (s desc url : String)
        (st : Option String),
      (TA._build_all_day_event uid ts d s desc url st)[3]? =
          some ("DTSTART;VALUE=DATE:" ++ TA._ics_date d) ∧
      (TA._build_all_day_event uid ts d s desc url st)[4]? =
          some ("DTEND;VALUE=DATE:" ++ TA._ics_date (Util.nextDay d))) ∧
    (∀ (now : String) (row : GC.Row) (bs be od ld : Util.PyDate),
      GC.parse_date (Util.dgetD row "投標開始日" "") = some bs →
      GC.parse_date (Util.dgetD row "投標結束日" "") = some be →
      GC.parse_date (Util.dgetD row "開標日期" "") = some od →
      GC.parse_date (Util.dgetD row "撥券日期(上市、上櫃日期)" "") = some ld →
      (Util.dget row "證券代號").isSome →
      ∃ evs, GC.rowEvents now row = some evs ∧
        evs.map (fun e => (e.dtstart, e.dtend)) =
          [(bs, Util.nextDay be), (od, Util.nextDay od),
           (ld, Util.nextDay ld)]) := by
  refine ⟨?_, ?_, ?_⟩
  · intro ts e
    constructor <;> simp [GT.rawEventLines]
  · intro uid ts d s desc url st
    constructor <;> simp [TA._build_all_day_event]
  · intro now row bs be od ld hbs hbe hod hld hcode
    rcases Option.isSome_iff_exists.1 hcode with ⟨code, hc⟩
    have hop := parse_date_dget_isSome row "開標日期" od hod
    rcases Option.isSome_iff_exists.1 hop with ⟨odv, hov⟩
    have huid : ∀ sfx, GC.make_uid row sfx =
        some (Util.md5Hex (code ++ "-" ++ odv ++ "-" ++ sfx) ++ "@twse-auction") := by
      intro sfx
      rw [GC.make_uid, hc, hov]
    simp only [GC.rowEvents, hbs, hbe, hod, hld, huid, Option.some_bind]
    exact ⟨_, rfl, rfl⟩

/-- Witness for C8 at a concrete fully-dated row. -/
theorem c8_witness :
    ∃ evs,
      GC.rowEvents "20250601T000000Z"
          (GC.rowOfData twseFields
            ["1", "2025/06/10", "甲", "91027", "上市", "初次上市", "競價",
             "2025/06/02", "2025/06/04", "1000", "50", "1", "10", "10", "500",
             "2025/06/17", "主辦"]) = some evs ∧
      evs.map (fun e => (e.dtstart, e.dtend)) =
        [(⟨2025, 6, 2⟩, Util.nextDay ⟨2025, 6, 4⟩),
         (⟨2025, 6, 10⟩, Util.nextDay ⟨2025, 6, 10⟩),
         (⟨2025, 6, 17⟩, Util.nextDay ⟨2025, 6, 17⟩)] :=
  c8_exclusive_end.2.2 "20250601T000000Z"
    (GC.rowOfData twseFields
      ["1", "2025/06/10", "甲", "91027", "上市", "初次上市", "競價",
       "2025/06/02", "2025/06/04", "1000", "50", "1", "10", "10", "500",
       "2025/06/17", "主辦"])
    ⟨2025, 6, 2⟩ ⟨2025, 6, 4⟩ ⟨2025, 6, 10⟩ ⟨2025, 6, 17⟩
    (by decide) (by decide) (by decide) (by decide) (by decide)

theorem status_some_iff (c : String) :
    ((if c ≠ "" then some "CANCELLED" else none) = some ("CANCELLED" : String))
      ↔ c ≠ "" := by
  by_cases hc : c = "" <;> simp [hc]

theorem cancel_prefix_iff (c : String) (hd : Char) (l : List Char)
    (hhd : hd ≠ '【') :
    ("【已取消】".data <+:
        ((if c ≠ "" then "【已取消】" else "").data ++ (hd :: l))) ↔ c ≠ "" := by
  by_cases hc : c = ""
  · simp only [hc, ne_eq, not_true_eq_false, if_false, iff_false]
    intro h
    rw [List.nil_append] at h
    exact hhd (List.cons_prefix_cons.1 h).1.symm
  · simp only [hc, ne_eq, not_false_eq_true, if_true, iff_true]
    exact List.prefix_append _ _

theorem stpf_begin : ("STATUS:".data.isPrefixOf "BEGIN:VEVENT".data) = false := rfl

theorem stpf_transp :
    ("STATUS:".data.isPrefixOf "TRANSP:TRANSPARENT".data) = false := rfl

theorem stpf_endv : ("STATUS:".data.isPrefixOf "END:VEVENT".data) = false := rfl

theorem stpf_uid (x : String) :
    ("STATUS:".data.isPrefixOf ("UID:" ++ x).data) = false := rfl

theorem stpf_dtstamp (x : String) :
    ("STATUS:".data.isPrefixOf ("DTSTAMP:" ++ x).data) = false := rfl

theorem stpf_dtstart (x : String) :
    ("STATUS:".data.isPrefixOf ("DTSTART;VALUE=DATE:" ++ x).data) = false := rfl

theorem stpf_dtend (x : String) :
    ("STATUS:".data.isPrefixOf ("DTEND;VALUE=DATE:" ++ x).data) = false := rfl

theorem stpf_summary (x : String) :
    ("STATUS:".data.isPrefixOf ("SUMMARY:" ++ x).data) = false := rfl

theorem stpf_desc (x : String) :
    ("STATUS:".data.isPrefixOf ("DESCRIPTION:" ++ x).data) = false := rfl

theorem stpf_url (x : String) :
    ("STATUS:".data.isPrefixOf ("URL:" ++ x).data) = false := rfl

theorem stpf_status (x : String) :
    ("STATUS:".data.isPrefixOf ("STATUS:" ++ x).data) = true := by
  rw [show (("STATUS:" ++ x).data = "STATUS:".data ++ x.data) from
    String.data_append _ _]
  exact List.isPrefixOf_iff_prefix.2 (List.prefix_append _ _)

theorem smpf_begin : ("SUMMARY:".data.isPrefixOf "BEGIN:VEVENT".data) = false := rfl

theorem smpf_transp :
    ("SUMMARY:".data.isPrefixOf "TRANSP:TRANSPARENT".data) = false := rfl

theorem smpf_endv : ("SUMMARY:".data.isPrefixOf "END:VEVENT".data) = false := rfl

theorem smpf_uid (x : String) :
    ("SUMMARY:".data.isPrefixOf ("UID:" ++ x).data) = false := rfl

theorem smpf_dtstamp (x : String) :
    ("SUMMARY:".data.isPrefixOf ("DTSTAMP:" ++ x).data) = false := rfl

theorem smpf_dtstart (x : String) :
    ("SUMMARY:".data.isPrefixOf ("DTSTART;VALUE=DATE:" ++ x).data) = false := rfl

theorem smpf_dtend (x : String) :
    ("SUMMARY:".data.isPrefixOf ("DTEND;VALUE=DATE:" ++ x).data) = false := rfl

theorem smpf_summary (x : String) :
    ("SUMMARY:".data.isPrefixOf ("SUMMARY:" ++ x).data) = true := by
  rw [show (("SUMMARY:" ++ x).data = "SUMMARY:".data ++ x.data) from
    String.data_append _ _]
  exact List.isPrefixOf_iff_prefix.2 (List.prefix_append _ _)

theorem smpf_desc (x : String) :
    ("SUMMARY:".data.isPrefixOf ("DESCRIPTION:" ++ x).data) = false := rfl

theorem smpf_url (x : String) :
    ("SUMMARY:".data.isPrefixOf ("URL:" ++ x).data) = false := rfl

theorem smpf_status (x : String) :
    ("SUMMARY:".data.isPrefixOf ("STATUS:" ++ x).data) = false := rfl

theorem block_status_filter (uid ts : String) (d : Util.PyDate)
    (s desc url : String) (st : Option String) :
    (TA._build_all_day_event uid ts d s desc url st).filter
        (fun l => "STATUS:".data.isPrefixOf l.data) =
      (match st with
       | some st' => if st' = "" then [] else ["STATUS:" ++ st']
       | none => []) := by
  rcases st with _ | st'
  · simp [TA._build_all_day_event, List.filter_append, List.filter_cons,
      stpf_begin, stpf_transp, stpf_endv, stpf_uid, stpf_dtstamp, stpf_dtstart,
      stpf_dtend, stpf_summary, stpf_desc, stpf_url]
  · by_cases hst : st' = "" <;>
      simp [TA._build_all_day_event, hst, List.filter_append, List.filter_cons,
        stpf_begin, stpf_transp, stpf_endv, stpf_uid, stpf_dtstamp, stpf_dtstart,
        stpf_dtend, stpf_summary, stpf_desc, stpf_url, stpf_status]

theorem block_summary_filter (uid ts : String) (d : Util.PyDate)
    (s desc url : String) (st : Option String) :
    (TA._build_all_day_event uid ts d s desc url st).filter
        (fun l => "SUMMARY:".data.isPrefixOf l.data) =
      ["SUMMARY:" ++ TA._ics_escape_text s] := by
  rcases st with _ | st'
  · simp [TA._build_all_day_event, List.filter_append, List.filter_cons,
      smpf_begin, smpf_transp, smpf_endv, smpf_uid, smpf_dtstamp, smpf_dtstart,
      smpf_dtend, smpf_summary, smpf_desc, smpf_url]
  · by_cases hst : st' = "" <;>
      simp [TA._build_all_day_event, hst, List.filter_append, List.filter_cons,
        smpf_begin, smpf_transp, smpf_endv, smpf_uid, smpf_dtstamp, smpf_dtstart,
        smpf_dtend, smpf_summary, smpf_desc, smpf_url, smpf_status]

theorem addEvent_status_filter (pfx ts : String) (row : TA.AuctionRow)
    (cd : String) (st : Option String) (bt kind : String)
    (when : Option Util.PyDate) (sfx : String) (extra : Option String) :
    (TA.addEvent pfx ts row cd st bt kind when sfx extra).filter
        (fun l => "STATUS:".data.isPrefixOf l.data) =
      (match when with
       | none => []
       | some _ =>
         match st with
         | some st' => if st' = "" then [] else ["STATUS:" ++ st']
         | none => []) := by
  rcases when with _ | w
  · simp [TA.addEvent]
  · simp only [TA.addEvent]
    rw [block_status_filter]

theorem addEvent_summary_filter (pfx ts : String) (row : TA.AuctionRow)
    (cd : String) (st : Option String) (bt kind : String)
    (when : Option Util.PyDate) (sfx : String) (extra : Option String) :
    (TA.addEvent pfx ts row cd st bt kind when sfx extra).filter
        (fun l => "SUMMARY:".data.isPrefixOf l.data) =
      (match when with
       | none => []
       | some _ => ["SUMMARY:" ++ TA._ics_escape_text (bt ++ " " ++ sfx)]) := by
  rcases when with _ | w
  · simp [TA.addEvent]
  · simp only [TA.addEvent]
    rw [block_summary_filter]

set_option maxHeartbeats 2000000 in
/-- C3 (amended): in `generate_calendar.py`, every event derived from a
record carries STATUS CANCELLED and the 【已取消】 summary prefix iff the
record's trimmed cancellation field is non-empty; in
`twse_auction_calendar.py`, every derived event block carries
STATUS:CANCELLED iff `cancel_reason` is non-empty, but summaries carry
no cancellation tag (they are unaffected by the cancellation field);
`generate_twse_auction_calendar.py` is handled by the counterexample
(it always serializes STATUS:CONFIRMED). -/
theorem c3_cancellation_amended :
    (∀ (now : String) (row : GC.Row) (evs : List GC.ICalEvent),
      GC.rowEvents now row = some evs → ∀ e ∈ evs,
        (e.status = some "CANCELLED" ↔
          Util.pyStrip (Util.dgetD row "取消競價拍賣(流標或取消)" "") ≠ "") ∧
        ("【已取消】".data <+: e.summary.data ↔
          Util.pyStrip (Util.dgetD row "取消競價拍賣(流標或取消)" "") ≠ "")) ∧
    (∀ (pfx ts : String) (row : TA.AuctionRow),
      (TA.rowEvents pfx ts row).filter
          (fun l => "STATUS:".data.isPrefixOf l.data) =
        (if row.cancel_reason ≠ "" then
          List.replicate
            ([row.bid_start, row.bid_end, row.open_date,
              row.allotment_date].countP (fun o => o.isSome))
            "STATUS:CANCELLED"
         else [])) ∧
    (∀ (pfx ts : String) (row : TA.AuctionRow) (c : String),
      (TA.rowEvents pfx ts { row with cancel_reason := c }).filter
          (fun l => "SUMMARY:".data.isPrefixOf l.data) =
        (TA.rowEvents pfx ts row).filter
          (fun l => "SUMMARY:".data.isPrefixOf l.data)) := by
  refine ⟨?_, ?_, ?_⟩
  · intro now row evs hrow
    rcases hbs : GC.parse_date (Util.dgetD row "投標開始日" "") with _ | bs <;>
    rcases hbe : GC.parse_date (Util.dgetD row "投標結束日" "") with _ | be <;>
    rcases hod : GC.parse_date (Util.dgetD row "開標日期" "") with _ | od <;>
    rcases hld : GC.parse_date
      (Util.dgetD row "撥券日期(上市、上櫃日期)" "") with _ | ld <;>
    rcases hu1 : GC.make_uid row "bid" with _ | u1 <;>
    rcases hu2 : GC.make_uid row "open" with _ | u2 <;>
    rcases hu3 : GC.make_uid row "list" with _ | u3 <;>
    simp only [GC.rowEvents, hbs, hbe, hod, hld, hu1, hu2, hu3,
      Option.bind_eq_bind, Option.some_bind, Option.none_bind, Option.pure_def,
      Option.some.injEq] at hrow <;>
    (try exact Option.noConfusion hrow) <;>
    (try subst hrow) <;>
    intro e he <;>
    (try simp only [List.nil_append, List.append_nil, List.singleton_append,
      List.cons_append, List.mem_cons, List.mem_singleton,
      List.not_mem_nil, or_false] at he) <;>
    (repeat' (first
      | exact he.elim
      | (rcases he with rfl | he)
      | subst he)) <;>
    exact ⟨status_some_iff _,
      by
        simp only [String.data_append, List.append_assoc]
        first
        | exact cancel_prefix_iff _ '📋' _ (by decide)
        | exact cancel_prefix_iff _ '🔔' _ (by decide)
        | exact cancel_prefix_iff _ '🎯' _ (by decide)⟩
  · intro pfx ts row
    by_cases hc : row.cancel_reason = "" <;>
    rcases hb1 : row.bid_start with _ | bs <;>
    rcases hb2 : row.bid_end with _ | be <;>
    rcases hb3 : row.open_date with _ | od <;>
    rcases hb4 : row.allotment_date with _ | ld <;>
    simp [TA.rowEvents, addEvent_status_filter, hc, hb1, hb2, hb3, hb4,
      List.filter_append, List.replicate,
      show ("STATUS:" ++ "CANCELLED") = "STATUS:CANCELLED" from rfl]
  · intro pfx ts row c
    rcases hb1 : row.bid_start with _ | bs <;>
    rcases hb2 : row.bid_end with _ | be <;>
    rcases hb3 : row.open_date with _ | od <;>
    rcases hb4 : row.allotment_date with _ | ld <;>
    simp [TA.rowEvents, addEvent_summary_filter, hb1, hb2, hb3, hb4,
      List.filter_append]

set_option maxRecDepth 40000 in
/-- Witness for C3 at a concrete cancelled record (derived via
`generate_calendar.py`: status CANCELLED and tagged summary). -/
theorem c3_witness :
    ∀ e ∈ (GC.rowEvents "TS" (GC.rowOfData twseFields rowCancelled)).getD [],
      (e.status = some "CANCELLED" ↔
        Util.pyStrip (Util.dgetD (GC.rowOfData twseFields rowCancelled)
          "取消競價拍賣(流標或取消)" "") ≠ "") ∧
      ("【已取消】".data <+: e.summary.data ↔
        Util.pyStrip (Util.dgetD (GC.rowOfData twseFields rowCancelled)
          "取消競價拍賣(流標或取消)" "") ≠ "") :=
  c3_cancellation_amended.1 "TS" (GC.rowOfData twseFields rowCancelled)
    ((GC.rowEvents "TS" (GC.rowOfData twseFields rowCancelled)).getD [])
    (by decide)

set_option maxRecDepth 40000 in
/-- Counterexample for C3 as stated: in
`generate_twse_auction_calendar.py`, a record whose cancellation-reason
field is non-empty after trimming still yields an event serialized with
STATUS:CONFIRMED, no STATUS:CANCELLED line, and no cancellation tag in
the summary. -/
theorem c3_counterexample :
    Util.pyStrip (Util.dgetD (GT.normalize_row twseFields rowCancelled)
        "取消競價拍賣(流標或取消)" "") ≠ "" ∧
    (GT.build_events twseFields [rowCancelled]).length = 1 ∧
    (∀ e ∈ GT.build_events twseFields [rowCancelled],
      "STATUS:CONFIRMED" ∈ GT.rawEventLines "TS" e ∧
      "STATUS:CANCELLED" ∉ GT.rawEventLines "TS" e ∧
      ¬ ("【已取消】".data <+: e.summary.data)) := by decide

theorem strExt (a b : String) (h : a.data = b.data) : a = b := by
  cases a
  cases b
  exact congrArg String.mk h

theorem data_join : ∀ (l : List String),
    (String.join l).data = (l.map String.data).flatten := by
  have haux : ∀ (l : List String) (acc : String),
      (l.foldl (fun r s => r ++ s) acc).data =
        acc.data ++ (l.map String.data).flatten := by
    intro l
    induction l with
    | nil => intro acc; simp
    | cons s rest ih =>
      intro acc
      simp only [List.foldl_cons, ih, List.map_cons, List.flatten_cons,
        String.data_append]
      simp [List.append_assoc]
  intro l
  simpa using haux l ""

theorem utf8LenL_append (a b : List Char) :
    Util.utf8LenL (a ++ b) = Util.utf8LenL a + Util.utf8LenL b := by
  simp [Util.utf8LenL, List.flatMap_append]

theorem utf8LenL_singleton (c : Char) : Util.utf8LenL [c] = Util.chLen c := by
  simp [Util.utf8LenL, Util.chLen]

theorem foldCore_flatten (limit : Nat) :
    ∀ (cs current : List Char) (clen : Nat),
      (GT.foldCore limit cs current clen).flatten = current ++ cs := by
  intro cs
  induction cs with
  | nil => intro current clen; simp [GT.foldCore]
  | cons ch rest ih =>
    intro current clen
    simp only [GT.foldCore]
    split
    · simp [ih]
    · simp [ih]

theorem foldCore_ne_nil (limit : Nat) (cs current : List Char) (clen : Nat) :
    GT.foldCore limit cs current clen ≠ [] := by
  cases cs with
  | nil => simp [GT.foldCore]
  | cons ch rest =>
    simp only [GT.foldCore]
    split <;> simp [foldCore_ne_nil]

theorem foldCore_parts (limit : Nat) (hl : 4 ≤ limit) :
    ∀ (cs current : List Char) (clen : Nat),
      clen = Util.utf8LenL current → clen ≤ limit →
      ∀ p ∈ GT.foldCore limit cs current clen, Util.utf8LenL p ≤ limit := by
  intro cs
  induction cs with
  | nil =>
    intro current clen hc hb p hp
    simp only [GT.foldCore, List.mem_singleton] at hp
    subst hp
    omega
  | cons ch rest ih =>
    intro current clen hc hb p hp
    simp only [GT.foldCore] at hp
    split at hp
    · simp only [List.mem_cons] at hp
      rcases hp with rfl | hp
      · omega
      · exact ih [ch] (Util.chLen ch) (utf8LenL_singleton ch).symm
          (le_trans (Util.chLen_le_four ch) hl) p hp
    · rename_i hcond
      simp only [Bool.and_eq_true, decide_eq_true_eq, not_and, not_lt] at hcond
      refine ih (current ++ [ch]) (clen + Util.chLen ch) ?_ ?_ p hp
      · rw [utf8LenL_append, utf8LenL_singleton, hc]
      · by_cases hcur : current = []
        · subst hcur
          have h0 : clen = 0 := by simpa [Util.utf8LenL] using hc
          have := Util.chLen_le_four ch
          omega
        · have := hcond (by simpa using hcur)
          omega

theorem foldCore_nonempty (limit : Nat) :
    ∀ (cs current : List Char) (clen : Nat), (current = [] → cs ≠ []) →
      ∀ p ∈ GT.foldCore limit cs current clen, p ≠ [] := by
  intro cs
  induction cs with
  | nil =>
    intro current clen h p hp
    simp only [GT.foldCore, List.mem_singleton] at hp
    subst hp
    intro hcur
    exact (h hcur) rfl
  | cons ch rest ih =>
    intro current clen h p hp
    simp only [GT.foldCore] at hp
    split at hp
    · rename_i hcond
      simp only [Bool.and_eq_true, decide_eq_true_eq] at hcond
      simp only [List.mem_cons] at hp
      rcases hp with rfl | hp
      · exact hcond.1
      · exact ih [ch] (Util.chLen ch) (by simp) p hp
    · exact ih (current ++ [ch]) (clen + Util.chLen ch) (by simp) p hp

theorem icsFoldGo_spec : ∀ (fuel : Nat) (cur : List Char),
    cur.length ≤ 73 + 72 * fuel →
    ∃ p ps, TA.icsFoldGo fuel cur = p :: ps ∧
      p.head? = cur.head? ∧
      p ++ (ps.map List.tail).flatten = cur ∧
      (∀ q ∈ p :: ps, q.length ≤ 73) ∧
      (∀ q ∈ ps, q.head? = some ' ') := by
  intro fuel
  induction fuel with
  | zero =>
    intro cur h
    refine ⟨cur, [], rfl, rfl, by simp, ?_, by simp⟩
    intro q hq
    simp only [List.mem_singleton] at hq
    subst hq
    omega
  | succ f ih =>
    intro cur h
    by_cases hle : cur.length ≤ 73
    · refine ⟨cur, [], by simp [TA.icsFoldGo, hle], rfl, by simp, ?_, by simp⟩
      intro q hq
      simp only [List.mem_singleton] at hq
      subst hq
      exact hle
    · have hrec : (' ' :: cur.drop 73).length ≤ 73 + 72 * f := by
        simp only [List.length_cons, List.length_drop]
        omega
      rcases ih (' ' :: cur.drop 73) hrec with ⟨p, ps, heq, hhead, hjoin, hbound, hspace⟩
      obtain ⟨t, hpt⟩ : ∃ t, p = ' ' :: t := by
        cases p with
        | nil => simp at hhead
        | cons a ta =>
          simp only [List.head?_cons, Option.some.injEq] at hhead
          exact ⟨ta, by rw [hhead]⟩
      refine ⟨cur.take 73, p :: ps, ?_, ?_, ?_, ?_, ?_⟩
      · simp [TA.icsFoldGo, hle, heq]
      · cases cur with
        | nil => simp at hle
        | cons a rest =>
          rw [show (73 : Nat) = 72 + 1 from rfl, List.take_succ_cons]
          simp
      · simp only [List.map_cons, List.flatten_cons, hpt, List.tail_cons]
        have hj : t ++ (ps.map List.tail).flatten = cur.drop 73 := by
          rw [hpt] at hjoin
          simpa using hjoin
        rw [hj, List.take_append_drop]
      · intro q hq
        simp only [List.mem_cons] at hq
        rcases hq with rfl | hq
        · simp only [List.length_take]
          omega
        · exact hbound q (List.mem_cons.2 hq)
      · intro q hq
        rcases List.mem_cons.1 hq with rfl | hq
        · rw [hpt]
          rfl
        · exact hspace q hq

/-- C2 (amended): `fold_ical_line` folds by UTF-8 octet count at
character boundaries — reconstituting the physical lines (strip one
leading space per continuation, concatenate) reproduces the logical
line, the first physical line holds at most `limit` octets and each
continuation holds one space plus at most `limit` octets of payload.
`_ics_fold_line` round-trips the same way and its continuation lines
start with a space, but it measures characters (every physical line has
at most 73 characters), not octets — so an over-budget multi-byte line
can stay unfolded (see the counterexample). -/
theorem c2_folding_amended :
    (∀ (line : String) (limit : Nat), 4 ≤ limit →
      Util.unfoldPhysical (GT.fold_ical_line line limit) = line ∧
      (match GT.fold_ical_line line limit with
       | [] => False
       | p0 :: rest =>
         Util.utf8Len p0 ≤ limit ∧
         ∀ c ∈ rest, ∃ chunk, c.data = ' ' :: chunk ∧
           Util.utf8LenL chunk ≤ limit ∧ chunk ≠ [])) ∧
    (∀ line : String,
      Util.unfoldPhysical (TA._ics_fold_line line) = line ∧
      (∀ p ∈ TA._ics_fold_line line, p.data.length ≤ 73) ∧
      (∀ q ∈ (TA._ics_fold_line line).tail, q.data.head? = some ' ')) := by
  constructor
  · intro line limit hl
    by_cases hline : line = ""
    · subst hline
      exact ⟨rfl, Nat.zero_le limit, by simp⟩
    · cases hparts : GT.foldCore limit line.data [] 0 with
      | nil => exact absurd hparts (foldCore_ne_nil limit line.data [] 0)
      | cons p rest =>
        have huff : GT.fold_ical_line line limit =
            (⟨p⟩ : String) :: rest.map fun chunk => (⟨' ' :: chunk⟩ : String) := by
          simp [GT.fold_ical_line, hline, hparts]
        have hflat : p ++ rest.flatten = line.data := by
          have := foldCore_flatten limit line.data [] 0
          rw [hparts] at this
          simpa using this
        have hbytes := foldCore_parts limit hl line.data [] 0 rfl (by omega)
        have hnonempty := foldCore_nonempty limit line.data [] 0
          (fun _ => fun hd => hline (strExt _ _ (by simpa using hd)))
        rw [huff]
        refine ⟨?_, ?_, ?_⟩
        · apply strExt
          simp only [Util.unfoldPhysical, String.data_append, data_join,
            List.map_map, Function.comp_def]
          rw [← hflat]
          congr 1
          have : ∀ chunk : List Char,
              ((⟨' ' :: chunk⟩ : String).data.drop 1) = chunk := fun _ => rfl
          simp [this]
        · rw [hparts] at hbytes
          exact hbytes p (List.mem_cons_self _ _)
        · intro c hc
          rcases List.mem_map.1 hc with ⟨chunk, hchunk, rfl⟩
          refine ⟨chunk, rfl, ?_, ?_⟩
          · rw [hparts] at hbytes
            exact hbytes chunk (List.mem_cons_of_mem _ hchunk)
          · rw [hparts] at hnonempty
            exact hnonempty chunk (List.mem_cons_of_mem _ hchunk)
  · intro line
    rcases icsFoldGo_spec line.data.length line.data (by omega) with
      ⟨p, ps, heq, hhead, hjoin, hbound, hspace⟩
    have hfold : TA._ics_fold_line line =
        (p :: ps).map fun cs => (⟨cs⟩ : String) := by
      rw [TA._ics_fold_line, TA.icsFoldCore, heq]
    rw [hfold]
    refine ⟨?_, ?_, ?_⟩
    · apply strExt
      simp only [List.map_cons, Util.unfoldPhysical, String.data_append,
        data_join, List.map_map, Function.comp_def]
      have hdrop : ∀ cs : List Char,
          ((⟨cs⟩ : String).data.drop 1) = cs.tail := by
        intro cs
        rw [show ((⟨cs⟩ : String).data = cs) from rfl, List.drop_one]
      simp only [hdrop]
      exact hjoin
    · intro q hq
      rcases List.mem_map.1 hq with ⟨cs, hcs, rfl⟩
      exact hbound cs hcs
    · intro q hq
      simp only [List.map_cons, List.tail_cons] at hq
      rcases List.mem_map.1 hq with ⟨cs, hcs, rfl⟩
      exact hspace cs hcs

/-- Witness for C2: byte-budget folding round-trips a concrete
26-character CJK line at the default 75-octet limit. -/
theorem c2_witness :
    Util.unfoldPhysical (GT.fold_ical_line cjkLine 75) = cjkLine :=
  (c2_folding_amended.1 cjkLine 75 (by decide)).1

/-- Counterexample for C2 as stated: `_ics_fold_line` measures
characters, so a 26-character line of 78 UTF-8 octets — over the
75-octet budget — is returned as a single unfolded physical line. -/
theorem c2_counterexample :
    TA._ics_fold_line cjkLine = [cjkLine] ∧ Util.utf8Len cjkLine = 78 ∧
      ¬ Util.utf8Len cjkLine ≤ 75 := by decide

theorem strptimeYMD_valid (sep : Char) (s : String) (d : Util.PyDate)
    (h : Util.strptimeYMD sep s = some d) :
    Util.validDate d.year d.month d.day = true := by
  unfold Util.strptimeYMD at h
  split at h
  · rename_i ys ms ds
    split at h
    · rename_i hguard
      simp only [Option.some.injEq] at h
      subst h
      simp only [Bool.and_eq_true] at hguard
      exact hguard.2
    · exact Option.noConfusion h
  · exact Option.noConfusion h

theorem parse_date_valid (s : String) (d : Util.PyDate)
    (h : GC.parse_date s = some d) :
    Util.validDate d.year d.month d.day = true := by
  unfold GC.parse_date at h
  split at h
  · exact Option.noConfusion h
  · exact strptimeYMD_valid _ _ _ h

theorem parse_twse_date_valid (s : String) (d : Util.PyDate)
    (h : GT.parse_twse_date s = some d) :
    Util.validDate d.year d.month d.day = true := by
  unfold GT.parse_twse_date at h
  split at h
  · exact Option.noConfusion h
  · split at h
    · rename_i d' hd'
      simp only [Option.some.injEq] at h
      subst h
      exact strptimeYMD_valid _ _ _ hd'
    · exact strptimeYMD_valid _ _ _ h

theorem ta_parse_twse_date_valid (s : String) (d : Util.PyDate)
    (h : TA._parse_twse_date s = some d) :
    Util.validDate d.year d.month d.day = true := by
  unfold TA._parse_twse_date at h
  split at h
  · exact Option.noConfusion h
  · split at h
    · rename_i y m dd
      split at h
      · rename_i hguard
        simp only [Option.some.injEq] at h
        subst h
        obtain ⟨h1, h2, h3, h4, h5, h6⟩ := hguard
        simp only [Util.validDate, Bool.and_eq_true, decide_eq_true_eq]
        refine ⟨⟨⟨⟨⟨?_, ?_⟩, ?_⟩, ?_⟩, ?_⟩, ?_⟩ <;> omega
      · exact Option.noConfusion h
    · exact Option.noConfusion h

/-- C6 (amended): every date-parser variant is total and returns no
date on empty, whitespace-only and sentinel inputs, every returned date
is a valid Gregorian calendar date, and concrete representative inputs
parse to the exact date — but only `parse_twse_date` of
`generate_twse_auction_calendar.py` accepts the `YYYY-MM-DD`
alternative; the other two variants accept only slash-separated text
(the counterexample shows `parse_date` rejecting a valid
`YYYY-MM-DD` date). -/
theorem c6_parser_amended :
    ((["", "   ", "0", "-", "--", "－", "N/A"].all fun s =>
        (GC.parse_date s).isNone && (GT.parse_twse_date s).isNone &&
          (TA._parse_twse_date s).isNone) = true) ∧
    (∀ (s : String) (d : Util.PyDate), GC.parse_date s = some d →
      Util.validDate d.year d.month d.day = true) ∧
    (∀ (s : String) (d : Util.PyDate), GT.parse_twse_date s = some d →
      Util.validDate d.year d.month d.day = true) ∧
    (∀ (s : String) (d : Util.PyDate), TA._parse_twse_date s = some d →
      Util.validDate d.year d.month d.day = true) ∧
    (GT.parse_twse_date "2025/06/10" = some ⟨2025, 6, 10⟩ ∧
     GT.parse_twse_date "2025-06-10" = some ⟨2025, 6, 10⟩ ∧
     GC.parse_date "2025/06/10" = some ⟨2025, 6, 10⟩ ∧
     GC.parse_date "2025-06-10" = none ∧
     TA._parse_twse_date "2025/06/10" = some ⟨2025, 6, 10⟩ ∧
     TA._parse_twse_date "2025-06-10" = none ∧
     GC.parse_date "2025/02/29" = none ∧
     GT.parse_twse_date "2024/02/29" = some ⟨2024, 2, 29⟩) :=
  ⟨by decide, parse_date_valid, parse_twse_date_valid, ta_parse_twse_date_valid,
    by decide⟩

/-- Witness for C6: the parsed concrete date is a valid calendar date. -/
theorem c6_witness : Util.validDate 2025 6 10 = true :=
  c6_parser_amended.2.1 "2025/06/10" ⟨2025, 6, 10⟩ (by decide)

/-- Counterexample for C6 as stated: `parse_date` of
`generate_calendar.py` returns no date for text that parses as a valid
`YYYY-MM-DD` calendar date (which the claim says every parser accepts),
while the sibling parser demonstrates the text is a well-formed date. -/
theorem c6_counterexample :
    GC.parse_date "2025-06-10" = none ∧
    GT.parse_twse_date "2025-06-10" = some ⟨2025, 6, 10⟩ := by decide

theorem foldl_upsert_pairs_mem :
    ∀ (ps : List (String × α)) (m : List (String × α)) (p : String × α),
      p ∈ ps.foldl (fun m q => Util.upsert m q.1 q.2) m → p ∈ ps ∨ p ∈ m := by
  intro ps
  induction ps with
  | nil => intro m p h; right; exact h
  | cons q rest ih =>
    intro m p h
    rcases ih _ p h with h | h
    · left
      exact List.mem_cons_of_mem _ h
    · rcases Util.mem_upsert _ _ _ _ h with h | h
      · left
        rw [h]
        exact List.mem_cons_self _ _
      · right
        exact h

theorem dictOfPairs_mem (ps : List (String × α)) (p : String × α)
    (h : p ∈ Util.dictOfPairs ps) : p ∈ ps := by
  rcases foldl_upsert_pairs_mem ps [] p h with h | h
  · exact h
  · simp at h

theorem foldl_upsert_pairs_key_mem :
    ∀ (ps : List (String × α)) (m : List (String × α)) (k : String),
      k ∈ Util.dictKeys m ∨ k ∈ ps.map (fun p => p.1) →
      k ∈ Util.dictKeys (ps.foldl (fun m q => Util.upsert m q.1 q.2) m) := by
  intro ps
  induction ps with
  | nil =>
    intro m k h
    rcases h with h | h
    · exact h
    · simp at h
  | cons q rest ih =>
    intro m k h
    apply ih
    rcases h with h | h
    · left
      rw [Util.keys_upsert]
      split
      · exact h
      · exact List.mem_append.2 (Or.inl h)
    · rw [List.map_cons] at h
      rcases List.mem_cons.1 h with rfl | h
      · left
        rw [Util.keys_upsert]
        split <;> rename_i hany
        · simp only [List.any_eq_true, decide_eq_true_eq] at hany
          rcases hany with ⟨p, hp, hpk⟩
          exact hpk ▸ List.mem_map_of_mem _ hp
        · exact List.mem_append.2 (Or.inr (by simp))
      · right
        exact h

/-- C7 (amended): the script normalizer is total and empty-defaulting —
a declared field always has a (trimmed) value, an absent position or
undeclared field yields the empty string, and every stored value comes
from a position of the row with `""` default.  `generate_calendar.py`'s
`make_uid`, however, indexes `row['證券代號']`/`row['開標日期']` with
brackets: it succeeds whenever both keys are present, but
`build_calendar` raises `KeyError` (modelled `none`) on a short row
that parses a date yet lacks the security code (see the
counterexample), so that pipeline is not total over arbitrary rows. -/
theorem c7_missing_fields_amended :
    (∀ (fields row : List String) (f : String), ¬ f ∈ fields →
      Util.dgetD (GT.normalize_row fields row) f "" = "") ∧
    (∀ (fields row : List String) (f : String), f ∈ fields →
      (Util.dget (GT.normalize_row fields row) f).isSome) ∧
    (∀ (fields row : List String) (p : String × String),
      p ∈ GT.normalize_row fields row →
      ∃ idx, fields[idx]? = some p.1 ∧
        p.2 = Util.pyStrip (row.getD idx "")) ∧
    (∀ (row : GC.Row) (sfx code od : String),
      Util.dget row "證券代號" = some code →
      Util.dget row "開標日期" = some od →
      (GC.make_uid row sfx).isSome) := by
  refine ⟨?_, ?_, ?_, ?_⟩
  · intro fields row f hf
    cases hg : Util.dget (GT.normalize_row fields row) f with
    | none => simp [Util.dgetD, hg]
    | some v =>
      exfalso
      have hmem := dictOfPairs_mem _ _ (Util.dget_some_mem _ _ _ hg)
      rcases List.mem_map.1 hmem with ⟨⟨idx, key⟩, hk, hkey⟩
      simp only [Prod.mk.injEq] at hkey
      apply hf
      rw [← hkey.1]
      rw [List.mk_mem_enum_iff_getElem?] at hk
      exact List.getElem?_mem hk
  · intro fields row f hf
    rw [Util.dget_isSome_iff_mem_keys]
    apply foldl_upsert_pairs_key_mem
    right
    rw [List.map_map]
    have : (fields.enum.map fun p =>
        ((p.2, Util.pyStrip (row.getD p.1 "")) : String × String).1) =
        fields.enum.map Prod.snd := rfl
    rw [show ((fun (p : String × String) => p.1) ∘
        fun (p : Nat × String) => (p.2, Util.pyStrip (row.getD p.1 ""))) =
        (Prod.snd : Nat × String → String) from rfl]
    rw [List.enum_map_snd]
    exact hf
  · intro fields row p hp
    have hmem := dictOfPairs_mem _ _ hp
    rcases List.mem_map.1 hmem with ⟨⟨idx, key⟩, hk, hkey⟩
    refine ⟨idx, ?_, ?_⟩
    · rw [List.mk_mem_enum_iff_getElem?] at hk
      rw [hk, ← hkey]
    · rw [← hkey]
  · intro row sfx code od h1 h2
    rw [GC.make_uid, h1, h2]
    rfl

/-- Witness for C7 at a short concrete row and an undeclared field. -/
theorem c7_witness :
    Util.dgetD (GT.normalize_row twseFields ["1", "2025/06/10"]) "無此欄位" ""
      = "" :=
  c7_missing_fields_amended.1 twseFields ["1", "2025/06/10"] "無此欄位" (by decide)

/-- Counterexample for C7 as stated: a short row (only serial number
and open date) makes `generate_calendar.py`'s pipeline fail —
`make_uid` indexes the absent `證券代號` key and raises `KeyError`
(`none` in the model) instead of yielding an empty string. -/
theorem c7_counterexample :
    GC.build_calendar "TS" [GC.rowOfData twseFields ["1", "2025/06/10"]] =
      none := by decide

theorem Util.sortStr_sorted (l : List String) :
    List.Sorted (fun a b => Util.strLe a b = true) (Util.sortStr l) := by
  haveI : IsTotal String (fun a b => Util.strLe a b = true) := ⟨Util.strLe_total⟩
  haveI : IsTrans String (fun a b => Util.strLe a b = true) :=
    ⟨fun a b c h1 h2 => Util.strLe_trans a b c h1 h2⟩
  exact List.sorted_insertionSort _ l

theorem Util.contains_keys_iff (m : List (String × α)) (k : String) :
    (Util.dictKeys m).contains k = true ↔ (Util.dget m k).isSome = true := by
  rw [Util.dget_isSome_iff_mem_keys]
  exact List.elem_iff

theorem Util.dget_none_iff_not_mem (m : List (String × α)) (k : String) :
    Util.dget m k = none ↔ ¬ k ∈ Util.dictKeys m := by
  rw [← Util.dget_isSome_iff_mem_keys]
  cases h : Util.dget m k <;> simp

theorem Util.dgetD_of_not_mem (m : List (String × α)) (k : String) (d : α)
    (h : ¬ k ∈ Util.dictKeys m) : Util.dgetD m k d = d := by
  rw [Util.dgetD, (Util.dget_none_iff_not_mem m k).2 h]
  rfl

theorem GC.mem_diffFields (old_row new_row : GC.Row)
    (t : String × String × String) :
    t ∈ GC.diffFields old_row new_row ↔
      ∃ f, (f ∈ Util.dictKeys old_row ∨ f ∈ Util.dictKeys new_row) ∧
        Util.pyStrip (Util.dgetD old_row f "") ≠
          Util.pyStrip (Util.dgetD new_row f "") ∧
        t = (Util.dgetD GC.FIELD_LABELS f f,
             Util.pyStrip (Util.dgetD old_row f ""),
             Util.pyStrip (Util.dgetD new_row f "")) := by
  simp only [GC.diffFields, List.mem_filterMap, Util.mem_sortStr,
    Util.mem_dedupFirst, List.mem_append]
  constructor
  · rintro ⟨f, hf, hg⟩
    by_cases hc : Util.pyStrip (Util.dgetD old_row f "") =
        Util.pyStrip (Util.dgetD new_row f "")
    · rw [if_neg (not_not_intro hc)] at hg
      exact Option.noConfusion hg
    · rw [if_pos hc] at hg
      exact ⟨f, hf, hc, (Option.some.inj hg).symm⟩
  · rintro ⟨f, hf, hc, ht⟩
    refine ⟨f, hf, ?_⟩
    rw [if_pos hc, ht]

theorem GC.diffFields_eq_nil_iff (old_row new_row : GC.Row) :
    GC.diffFields old_row new_row = [] ↔
      ∀ f, Util.pyStrip (Util.dgetD old_row f "") =
        Util.pyStrip (Util.dgetD new_row f "") := by
  constructor
  · intro h f
    by_contra hne
    by_cases hfo : f ∈ Util.dictKeys old_row
    · have hm := (GC.mem_diffFields old_row new_row _).2 ⟨f, Or.inl hfo, hne, rfl⟩
      rw [h] at hm
      exact (List.not_mem_nil _) hm
    · by_cases hfn : f ∈ Util.dictKeys new_row
      · have hm := (GC.mem_diffFields old_row new_row _).2 ⟨f, Or.inr hfn, hne, rfl⟩
        rw [h] at hm
        exact (List.not_mem_nil _) hm
      · exact hne (by
          rw [Util.dgetD_of_not_mem _ _ _ hfo, Util.dgetD_of_not_mem _ _ _ hfn])
  · intro h
    simp only [GC.diffFields]
    exact List.filterMap_eq_nil_iff.2 (fun f _ => if_neg (fun hc => hc (h f)))

/-- C5: `diff_data` classifies record keys exactly — `added` holds the
new-map records of keys absent from the old map and is emitted in
ascending key order; `removed` holds the old-map records of keys absent
from the new map; `changed` holds, for each key present in both maps
whose records differ after trimming, the new record paired with the
ordered `(label, old, new)` tuples of exactly the differing fields over
the union of both records' field names, labels drawn from
`FIELD_LABELS` with the raw field name as fallback; and a key present
in both maps whose records have all trimmed fields equal produces no
diff entry at all. -/
theorem c5_diff_data (old_map new_map : List (String × GC.Row)) :
    (∀ r, r ∈ (GC.diff_data old_map new_map).1 ↔
        ∃ k, Util.dget new_map k = some r ∧ Util.dget old_map k = none) ∧
    (∃ ks, List.Sorted (fun a b => Util.strLe a b = true) ks ∧
        (GC.diff_data old_map new_map).1 = ks.filterMap (Util.dget new_map)) ∧
    (∀ r, r ∈ (GC.diff_data old_map new_map).2.1 ↔
        ∃ k, Util.dget old_map k = some r ∧ Util.dget new_map k = none) ∧
    (∀ p, p ∈ (GC.diff_data old_map new_map).2.2 ↔
        ∃ k old_row, Util.dget old_map k = some old_row ∧
          Util.dget new_map k = some p.1 ∧
          p.2 = GC.diffFields old_row p.1 ∧ p.2 ≠ []) ∧
    (∀ old_row new_row t, t ∈ GC.diffFields old_row new_row ↔
        ∃ f, (f ∈ Util.dictKeys old_row ∨ f ∈ Util.dictKeys new_row) ∧
          Util.pyStrip (Util.dgetD old_row f "") ≠
            Util.pyStrip (Util.dgetD new_row f "") ∧
          t = (Util.dgetD GC.FIELD_LABELS f f,
               Util.pyStrip (Util.dgetD old_row f ""),
               Util.pyStrip (Util.dgetD new_row f ""))) ∧
    (∀ old_row new_row, GC.diffFields old_row new_row = [] ↔
        ∀ f, Util.pyStrip (Util.dgetD old_row f "") =
          Util.pyStrip (Util.dgetD new_row f "")) := by
  refine ⟨?_, ?_, ?_, ?_, fun o n t => GC.mem_diffFields o n t,
    fun o n => GC.diffFields_eq_nil_iff o n⟩
  · intro r
    simp only [GC.diff_data, List.mem_filterMap, Util.mem_sortStr,
      List.mem_filter, decide_eq_true_eq]
    constructor
    · rintro ⟨k, ⟨hk1, hk2⟩, hg⟩
      refine ⟨k, hg, ?_⟩
      rw [Util.dget_none_iff_not_mem]
      intro hmem
      exact hk2 ((Util.contains_keys_iff old_map k).2
        ((Util.dget_isSome_iff_mem_keys old_map k).2 hmem))
    · rintro ⟨k, hnew, hold⟩
      refine ⟨k, ⟨?_, ?_⟩, hnew⟩
      · exact (Util.dget_isSome_iff_mem_keys new_map k).1 (by rw [hnew]; rfl)
      · intro hc
        rw [Util.dget_none_iff_not_mem] at hold
        exact hold ((Util.dget_isSome_iff_mem_keys old_map k).1
          ((Util.contains_keys_iff old_map k).1 hc))
  · exact ⟨_, Util.sortStr_sorted _, rfl⟩
  · intro r
    simp only [GC.diff_data, List.mem_filterMap, Util.mem_sortStr,
      List.mem_filter, decide_eq_true_eq]
    constructor
    · rintro ⟨k, ⟨hk1, hk2⟩, hg⟩
      refine ⟨k, hg, ?_⟩
      rw [Util.dget_none_iff_not_mem]
      intro hmem
      exact hk2 ((Util.contains_keys_iff new_map k).2
        ((Util.dget_isSome_iff_mem_keys new_map k).2 hmem))
    · rintro ⟨k, hold, hnew⟩
      refine ⟨k, ⟨?_, ?_⟩, hold⟩
      · exact (Util.dget_isSome_iff_mem_keys old_map k).1 (by rw [hold]; rfl)
      · intro hc
        rw [Util.dget_none_iff_not_mem] at hnew
        exact hnew ((Util.dget_isSome_iff_mem_keys new_map k).1
          ((Util.contains_keys_iff new_map k).1 hc))
  · intro p
    obtain ⟨p1, p2⟩ := p
    simp only [GC.diff_data, List.mem_filterMap, Util.mem_sortStr,
      List.mem_filter]
    constructor
    · rintro ⟨k, ⟨hk1, hk2⟩, hg⟩
      cases ho : Util.dget old_map k with
      | none =>
        cases hn : Util.dget new_map k with
        | none => rw [ho, hn] at hg; exact Option.noConfusion hg
        | some n => rw [ho, hn] at hg; exact Option.noConfusion hg
      | some o =>
        cases hn : Util.dget new_map k with
        | none => rw [ho, hn] at hg; exact Option.noConfusion hg
        | some n =>
          rw [ho, hn] at hg
          have hg' : (if GC.diffFields o n ≠ [] then
              some (n, GC.diffFields o n) else none) = some (p1, p2) := hg
          by_cases hd : GC.diffFields o n = []
          · rw [if_neg (not_not_intro hd)] at hg'
            exact Option.noConfusion hg'
          · rw [if_pos hd] at hg'
            have h := Option.some.inj hg'
            rw [Prod.mk.injEq] at h
            obtain ⟨rfl, rfl⟩ := h
            exact ⟨k, o, ho, hn, rfl, hd⟩
    · rintro ⟨k, o, ho, hn, hp2, hne⟩
      refine ⟨k, ⟨(Util.dget_isSome_iff_mem_keys old_map k).1 (by rw [ho]; rfl),
        (Util.contains_keys_iff new_map k).2 (by rw [hn]; rfl)⟩, ?_⟩
      rw [ho, hn]
      have hq : (if GC.diffFields o p1 ≠ [] then
          some (p1, GC.diffFields o p1) else none) = some (p1, p2) := by
        rw [if_pos (by rw [← hp2]; exact hne), ← hp2]
      exact hq

/-- Witness for C5: a record present only in the new map is reported
as added. -/
theorem c5_witness :
    ([("證券代號", "2317")] : GC.Row) ∈
      (GC.diff_data [] [("K", [("證券代號", "2317")])]).1 :=
  ((c5_diff_data [] [("K", [("證券代號", "2317")])]).1
    [("證券代號", "2317")]).2 ⟨"K", by decide, by decide⟩

theorem Util.strLt_asymm (a b : String) (h1 : Util.strLt a b = true)
    (h2 : Util.strLt b a = true) : False :=
  Util.lexLt_asymm _ _ h1 h2

theorem Util.strLt_irrefl (a : String) : ¬ Util.strLt a a = true :=
  fun h => Util.lexLt_asymm _ _ h h

theorem Util.strLt_trans (a b c : String) (h1 : Util.strLt a b = true)
    (h2 : Util.strLt b c = true) : Util.strLt a c = true :=
  Util.lexLt_trans _ _ _ h1 h2

theorem Util.strLt_trichotomy (a b : String) :
    Util.strLt a b = true ∨ a = b ∨ Util.strLt b a = true := by
  by_cases h : a = b
  · exact Or.inr (Or.inl h)
  · rcases Util.lexLt_connex a.data b.data (fun hd => h (strExt a b hd)) with h' | h'
    · exact Or.inl h'
    · exact Or.inr (Or.inr h')

theorem Util.pyDate_ext (a b : Util.PyDate) (hy : a.year = b.year)
    (hm : a.month = b.month) (hd : a.day = b.day) : a = b := by
  cases a
  cases b
  simp_all

theorem GT.dateTupleLT_iff (a b : Util.PyDate) :
    GT.dateTupleLT a b = true ↔
      (a.year < b.year ∨ (a.year = b.year ∧
        (a.month < b.month ∨ (a.month = b.month ∧ a.day < b.day)))) := by
  simp [GT.dateTupleLT, Bool.or_eq_true, Bool.and_eq_true, decide_eq_true_eq]

theorem GT.dateTupleLT_trans (a b c : Util.PyDate)
    (h1 : GT.dateTupleLT a b = true) (h2 : GT.dateTupleLT b c = true) :
    GT.dateTupleLT a c = true := by
  rw [GT.dateTupleLT_iff] at h1 h2 ⊢
  omega

theorem GT.dateTupleLT_irrefl (a : Util.PyDate) : ¬ GT.dateTupleLT a a = true := by
  rw [GT.dateTupleLT_iff]
  omega

theorem GT.dateTupleLT_trichotomy (a b : Util.PyDate) :
    GT.dateTupleLT a b = true ∨ a = b ∨ GT.dateTupleLT b a = true := by
  by_cases hy : a.year = b.year
  · by_cases hm : a.month = b.month
    · by_cases hd : a.day = b.day
      · exact Or.inr (Or.inl (Util.pyDate_ext a b hy hm hd))
      · rcases Nat.lt_or_ge a.day b.day with h | h
        · exact Or.inl ((GT.dateTupleLT_iff a b).2 (Or.inr ⟨hy, Or.inr ⟨hm, h⟩⟩))
        · have hlt : b.day < a.day := Nat.lt_of_le_of_ne h (fun he => hd he.symm)
          exact Or.inr (Or.inr ((GT.dateTupleLT_iff b a).2
            (Or.inr ⟨hy.symm, Or.inr ⟨hm.symm, hlt⟩⟩)))
    · rcases Nat.lt_or_ge a.month b.month with h | h
      · exact Or.inl ((GT.dateTupleLT_iff a b).2 (Or.inr ⟨hy, Or.inl h⟩))
      · have hlt : b.month < a.month := Nat.lt_of_le_of_ne h (fun he => hm he.symm)
        exact Or.inr (Or.inr ((GT.dateTupleLT_iff b a).2
          (Or.inr ⟨hy.symm, Or.inl hlt⟩)))
  · rcases Nat.lt_or_ge a.year b.year with h | h
    · exact Or.inl ((GT.dateTupleLT_iff a b).2 (Or.inl h))
    · have hlt : b.year < a.year := Nat.lt_of_le_of_ne h (fun he => hy he.symm)
      exact Or.inr (Or.inr ((GT.dateTupleLT_iff b a).2 (Or.inl hlt)))

theorem GT.sortKeyLE_iff (a b : GT.CalendarEvent) :
    GT.sortKeyLE a b = true ↔
      (GT.dateTupleLT a.event_date b.event_date = true ∨
        (a.event_date = b.event_date ∧
          (Util.strLt a.summary b.summary = true ∨
            (a.summary = b.summary ∧ Util.strLe a.uid b.uid = true)))) := by
  simp [GT.sortKeyLE, Bool.or_eq_true, Bool.and_eq_true, decide_eq_true_eq]

theorem GT.sortKeyLE_total (a b : GT.CalendarEvent) :
    GT.sortKeyLE a b = true ∨ GT.sortKeyLE b a = true := by
  rw [GT.sortKeyLE_iff, GT.sortKeyLE_iff]
  rcases GT.dateTupleLT_trichotomy a.event_date b.event_date with h | h | h
  · exact Or.inl (Or.inl h)
  · rcases Util.strLt_trichotomy a.summary b.summary with hs | hs | hs
    · exact Or.inl (Or.inr ⟨h, Or.inl hs⟩)
    · rcases Util.strLe_total a.uid b.uid with hu | hu
      · exact Or.inl (Or.inr ⟨h, Or.inr ⟨hs, hu⟩⟩)
      · exact Or.inr (Or.inr ⟨h.symm, Or.inr ⟨hs.symm, hu⟩⟩)
    · exact Or.inr (Or.inr ⟨h.symm, Or.inl hs⟩)
  · exact Or.inr (Or.inl h)

theorem GT.sortKeyLE_trans (a b c : GT.CalendarEvent)
    (h1 : GT.sortKeyLE a b = true) (h2 : GT.sortKeyLE b c = true) :
    GT.sortKeyLE a c = true := by
  rw [GT.sortKeyLE_iff] at h1 h2 ⊢
  rcases h1 with h1 | ⟨he1, hs1⟩
  · rcases h2 with h2 | ⟨he2, hs2⟩
    · exact Or.inl (GT.dateTupleLT_trans _ _ _ h1 h2)
    · exact Or.inl (he2 ▸ h1)
  · rcases h2 with h2 | ⟨he2, hs2⟩
    · refine Or.inl ?_
      rw [he1]
      exact h2
    · refine Or.inr ⟨he1.trans he2, ?_⟩
      rcases hs1 with hs1 | ⟨hq1, hu1⟩
      · rcases hs2 with hs2 | ⟨hq2, hu2⟩
        · exact Or.inl (Util.strLt_trans _ _ _ hs1 hs2)
        · exact Or.inl (hq2 ▸ hs1)
      · rcases hs2 with hs2 | ⟨hq2, hu2⟩
        · refine Or.inl ?_
          rw [hq1]
          exact hs2
        · exact Or.inr ⟨hq1.trans hq2, Util.strLe_trans _ _ _ hu1 hu2⟩

theorem GT.sortKeyLE_antisymm_key (a b : GT.CalendarEvent)
    (h1 : GT.sortKeyLE a b = true) (h2 : GT.sortKeyLE b a = true) :
    GT.tupleKey a = GT.tupleKey b := by
  rw [GT.sortKeyLE_iff] at h1 h2
  rcases h1 with h1 | ⟨he1, hs1⟩
  · rcases h2 with h2 | ⟨he2, hs2⟩
    · exact (GT.dateTupleLT_irrefl _ (GT.dateTupleLT_trans _ _ _ h1 h2)).elim
    · exact (GT.dateTupleLT_irrefl _ (he2 ▸ h1)).elim
  · rcases h2 with h2 | ⟨he2, hs2⟩
    · exact (GT.dateTupleLT_irrefl _ (he1 ▸ h2)).elim
    · rcases hs1 with hs1 | ⟨hq1, hu1⟩
      · rcases hs2 with hs2 | ⟨hq2, hu2⟩
        · exact (Util.strLt_asymm _ _ hs1 hs2).elim
        · exact (Util.strLt_irrefl _ (hq2 ▸ hs1)).elim
      · rcases hs2 with hs2 | ⟨hq2, hu2⟩
        · exact (Util.strLt_irrefl _ (hq1 ▸ hs2)).elim
        · have hu : a.uid = b.uid := Util.strLe_antisymm _ _ hu1 hu2
          simp [GT.tupleKey, he1, hq1, hu]

theorem GT.sortEvents_sorted (l : List GT.CalendarEvent) :
    List.Sorted (fun a b => GT.sortKeyLE a b = true) (GT.sortEvents l) := by
  haveI : IsTotal GT.CalendarEvent (fun a b => GT.sortKeyLE a b = true) :=
    ⟨GT.sortKeyLE_total⟩
  haveI : IsTrans GT.CalendarEvent (fun a b => GT.sortKeyLE a b = true) :=
    ⟨GT.sortKeyLE_trans⟩
  exact List.sorted_insertionSort _ l

theorem GT.sortEvents_perm (l : List GT.CalendarEvent) :
    (GT.sortEvents l).Perm l :=
  List.perm_insertionSort _ l

theorem GT.sortEvents_perm_eq (l1 l2 : List GT.CalendarEvent)
    (hp : l1.Perm l2) (hnd : (l1.map GT.tupleKey).Nodup) :
    GT.sortEvents l1 = GT.sortEvents l2 := by
  haveI : IsAntisymm GT.CalendarEvent
      (fun a b => GT.sortKeyLE a b = true ∧ GT.tupleKey a ≠ GT.tupleKey b) :=
    ⟨fun a b h1 h2 => absurd (GT.sortKeyLE_antisymm_key a b h1.1 h2.1) h1.2⟩
  have hnd1 : l1.Pairwise (fun a b => GT.tupleKey a ≠ GT.tupleKey b) :=
    List.pairwise_map.1 hnd
  have hnd2 : l2.Pairwise (fun a b => GT.tupleKey a ≠ GT.tupleKey b) :=
    (List.Perm.pairwise_iff (fun h he => h he.symm) hp).1 hnd1
  have hp1 : (GT.sortEvents l1).Pairwise (fun a b => GT.tupleKey a ≠ GT.tupleKey b) :=
    (List.Perm.pairwise_iff (fun h he => h he.symm) (GT.sortEvents_perm l1)).2 hnd1
  have hp2 : (GT.sortEvents l2).Pairwise (fun a b => GT.tupleKey a ≠ GT.tupleKey b) :=
    (List.Perm.pairwise_iff (fun h he => h he.symm) (GT.sortEvents_perm l2)).2 hnd2
  have hperm : (GT.sortEvents l1).Perm (GT.sortEvents l2) :=
    ((GT.sortEvents_perm l1).trans hp).trans (GT.sortEvents_perm l2).symm
  exact List.eq_of_perm_of_sorted hperm
    (List.Pairwise.and (GT.sortEvents_sorted l1) hp1)
    (List.Pairwise.and (GT.sortEvents_sorted l2) hp2)

theorem dtpf_begin : ("DTSTAMP:".data.isPrefixOf "BEGIN:VEVENT".data) = false := rfl

theorem dtpf_status :
    ("DTSTAMP:".data.isPrefixOf "STATUS:CONFIRMED".data) = false := rfl

theorem dtpf_transp :
    ("DTSTAMP:".data.isPrefixOf "TRANSP:TRANSPARENT".data) = false := rfl

theorem dtpf_endv : ("DTSTAMP:".data.isPrefixOf "END:VEVENT".data) = false := rfl

theorem dtpf_uid (x : String) :
    ("DTSTAMP:".data.isPrefixOf ("UID:" ++ x).data) = false := rfl

theorem dtpf_dtstamp (x : String) :
    ("DTSTAMP:".data.isPrefixOf ("DTSTAMP:" ++ x).data) = true := by
  rw [show (("DTSTAMP:" ++ x).data = "DTSTAMP:".data ++ x.data) from
    String.data_append _ _]
  exact List.isPrefixOf_iff_prefix.2 (List.prefix_append _ _)

theorem dtpf_dtstart (x : String) :
    ("DTSTAMP:".data.isPrefixOf ("DTSTART;VALUE=DATE:" ++ x).data) = false := rfl

theorem dtpf_dtend (x : String) :
    ("DTSTAMP:".data.isPrefixOf ("DTEND;VALUE=DATE:" ++ x).data) = false := rfl

theorem dtpf_summary (x : String) :
    ("DTSTAMP:".data.isPrefixOf ("SUMMARY:" ++ x).data) = false := rfl

theorem dtpf_desc (x : String) :
    ("DTSTAMP:".data.isPrefixOf ("DESCRIPTION:" ++ x).data) = false := rfl

theorem dtpf_url (x : String) :
    ("DTSTAMP:".data.isPrefixOf ("URL:" ++ x).data) = false := rfl

theorem headerLines_dtstamp_filter :
    GT.headerLines.filter (fun s => "DTSTAMP:".data.isPrefixOf s.data) = [] := rfl

theorem rawEventLines_dtstamp_filter (ts : String) (e : GT.CalendarEvent) :
    (GT.rawEventLines ts e).filter (fun l => "DTSTAMP:".data.isPrefixOf l.data) =
      ["DTSTAMP:" ++ ts] := by
  simp [GT.rawEventLines, List.filter_cons, dtpf_begin, dtpf_uid, dtpf_dtstamp,
    dtpf_dtstart, dtpf_dtend, dtpf_summary, dtpf_desc, dtpf_url, dtpf_status,
    dtpf_transp, dtpf_endv]

theorem Util.flatMap_singleton_fn (l : List α) (g : α → β) :
    l.flatMap (fun a => [g a]) = l.map g := by
  induction l with
  | nil => rfl
  | cons x xs ih => simp [List.flatMap_cons, ih]

theorem rawLines_dtstamp_filter (ts : String) (l : List GT.CalendarEvent) :
    (GT.rawLines ts l).filter (fun s => "DTSTAMP:".data.isPrefixOf s.data) =
      (GT.sortEvents l).map (fun e => "DTSTAMP:" ++ ts) := by
  rw [GT.rawLines, List.filter_append, List.filter_append,
    headerLines_dtstamp_filter, List.filter_flatMap]
  simp only [rawEventLines_dtstamp_filter]
  rw [List.nil_append,
    show (["END:VCALENDAR"].filter
      (fun s => "DTSTAMP:".data.isPrefixOf s.data)) = [] from rfl,
    List.append_nil, Util.flatMap_singleton_fn]

theorem dtpf_statusv (x : String) :
    ("DTSTAMP:".data.isPrefixOf ("STATUS:" ++ x).data) = false := rfl

theorem block_dtstamp_filter (uid ts : String) (d : Util.PyDate)
    (s desc url : String) (st : Option String) :
    (TA._build_all_day_event uid ts d s desc url st).filter
        (fun l => "DTSTAMP:".data.isPrefixOf l.data) = ["DTSTAMP:" ++ ts] := by
  rcases st with _ | st'
  · simp [TA._build_all_day_event, List.filter_append, List.filter_cons,
      dtpf_begin, dtpf_transp, dtpf_endv, dtpf_uid, dtpf_dtstamp, dtpf_dtstart,
      dtpf_dtend, dtpf_summary, dtpf_desc, dtpf_url]
  · by_cases hst : st' = "" <;>
      simp [TA._build_all_day_event, hst, List.filter_append, List.filter_cons,
        dtpf_begin, dtpf_transp, dtpf_endv, dtpf_uid, dtpf_dtstamp, dtpf_dtstart,
        dtpf_dtend, dtpf_summary, dtpf_desc, dtpf_url, dtpf_statusv]

theorem addEvent_dtstamp_mem (pfx ts : String) (row : TA.AuctionRow)
    (cd : String) (st : Option String) (bt kind : String)
    (when : Option Util.PyDate) (sfx : String) (extra : Option String)
    (s : String)
    (h : s ∈ (TA.addEvent pfx ts row cd st bt kind when sfx extra).filter
        (fun l => "DTSTAMP:".data.isPrefixOf l.data)) :
    s = "DTSTAMP:" ++ ts := by
  rcases when with _ | w
  · simp [TA.addEvent] at h
  · simp only [TA.addEvent] at h
    rw [block_dtstamp_filter] at h
    exact List.mem_singleton.1 h

/-- C4 (amended): in `generate_twse_auction_calendar.py`, `render_ics`
emits its events sorted ascending by the key
`(event_date, summary, uid)`, every DTSTAMP line of a run carries the
one shared generation timestamp, and serialization is insensitive to
permutations of the input — byte-for-byte identical output — for every
event set whose sort keys are pairwise distinct.  (When two events
share the full sort key but differ elsewhere, e.g. in the description,
the stable sort preserves their relative input order, so a permutation
can change the output; the key does not determine the serialized
bytes.)  In `twse_auction_calendar.py`, `rows_to_ics_events` shares
one timestamp across every emitted DTSTAMP line, but performs no
sorting at all — events appear in input row order — so the
sorted-output and order-insensitivity parts of the claim fail there
outright. -/
theorem c4_serialization_amended (ts : String) :
    (∀ l, List.Sorted (fun a b => GT.sortKeyLE a b = true) (GT.sortEvents l)) ∧
    (∀ l, (GT.sortEvents l).Perm l) ∧
    (∀ l, (GT.rawLines ts l).filter (fun s => "DTSTAMP:".data.isPrefixOf s.data) =
        (GT.sortEvents l).map (fun e => "DTSTAMP:" ++ ts)) ∧
    (∀ l1 l2, l1.Perm l2 → (l1.map GT.tupleKey).Nodup →
        GT.render_ics ts l1 = GT.render_ics ts l2) ∧
    (∀ (pfx : String) (rows : List TA.AuctionRow) (s : String),
        s ∈ TA.rows_to_ics_events pfx rows ts →
        "DTSTAMP:".data.isPrefixOf s.data = true →
        s = "DTSTAMP:" ++ ts) := by
  refine ⟨GT.sortEvents_sorted, GT.sortEvents_perm,
    fun l => rawLines_dtstamp_filter ts l, ?_, ?_⟩
  · intro l1 l2 hp hnd
    rw [GT.render_ics, GT.render_ics, GT.rawLines, GT.rawLines,
      GT.sortEvents_perm_eq l1 l2 hp hnd]
  · intro pfx rows s hs hpre
    have hmem : s ∈ (TA.rows_to_ics_events pfx rows ts).filter
        (fun l => "DTSTAMP:".data.isPrefixOf l.data) :=
      List.mem_filter.2 ⟨hs, hpre⟩
    rw [TA.rows_to_ics_events, List.filter_flatMap] at hmem
    rcases List.mem_flatMap.1 hmem with ⟨r, hr, hsr⟩
    simp only [TA.rowEvents, List.filter_append] at hsr
    rcases List.mem_append.1 hsr with h1 | h1
    · rcases List.mem_append.1 h1 with h2 | h2
      · rcases List.mem_append.1 h2 with h3 | h3
        · exact addEvent_dtstamp_mem _ _ _ _ _ _ _ _ _ _ _ h3
        · exact addEvent_dtstamp_mem _ _ _ _ _ _ _ _ _ _ _ h3
      · exact addEvent_dtstamp_mem _ _ _ _ _ _ _ _ _ _ _ h2
    · exact addEvent_dtstamp_mem _ _ _ _ _ _ _ _ _ _ _ h1

/-- Witness for C4: two permutations of a two-event set with distinct
sort keys render identically. -/
theorem c4_witness :
    GT.render_ics "TS" [dupEventA, soloEventC] =
      GT.render_ics "TS" [soloEventC, dupEventA] :=
  (c4_serialization_amended "TS").2.2.2.1 [dupEventA, soloEventC]
    [soloEventC, dupEventA] (List.Perm.swap soloEventC dupEventA [])
    (by decide)

set_option maxRecDepth 40000 in
/-- Counterexample for C4 as stated, in both cited serializers.
`generate_twse_auction_calendar.py`: two events with the identical
sort key `(event_date, summary, uid)` but different descriptions —
swapping them permutes the input yet changes the serialized bytes.
`twse_auction_calendar.py`: two rows with distinct codes, names and
open dates — swapping them changes the emitted event lines, and with
the later open date first the DTSTART lines appear in descending date
order, so the emission is neither sorted nor order-insensitive. -/
theorem c4_counterexample :
    (List.Perm [dupEventA, dupEventB] [dupEventB, dupEventA] ∧
      GT.render_ics "TS" [dupEventA, dupEventB] ≠
        GT.render_ics "TS" [dupEventB, dupEventA]) ∧
    (List.Perm
        [TA.auctionRowOfData rowOpenLate, TA.auctionRowOfData rowOpenEarly]
        [TA.auctionRowOfData rowOpenEarly, TA.auctionRowOfData rowOpenLate] ∧
      TA.rows_to_ics_events "twse"
          [TA.auctionRowOfData rowOpenLate, TA.auctionRowOfData rowOpenEarly]
          "TS" ≠
        TA.rows_to_ics_events "twse"
          [TA.auctionRowOfData rowOpenEarly, TA.auctionRowOfData rowOpenLate]
          "TS") ∧
    ((TA.rows_to_ics_events "twse"
          [TA.auctionRowOfData rowOpenLate, TA.auctionRowOfData rowOpenEarly]
          "TS").filter
        (fun l => "DTSTART;VALUE=DATE:".data.isPrefixOf l.data) =
      ["DTSTART;VALUE=DATE:20250612", "DTSTART;VALUE=DATE:20250610"]) :=
  ⟨⟨List.Perm.swap dupEventB dupEventA [], by decide⟩,
   ⟨List.Perm.swap (TA.auctionRowOfData rowOpenEarly)
      (TA.auctionRowOfData rowOpenLate) [], by decide⟩,
   by decide⟩

set_option maxRecDepth 40000 in
/-- C1 (amended): uid derivation is deterministic in every variant, but
only `generate_calendar.py` hashes exactly the triple
`(security_code, open_date_text, event_kind)`: there `make_uid` is the
MD5 of `code-openDate-kind` plus the `@twse-auction` tag (so it factors
through the two key fields and the kind alone, and the three kinds give
three distinct uids at a concrete record).  In
`generate_twse_auction_calendar.py` every event's uid is the SHA-1 of
`code|security_name|kind|event_date|market|issue_type` — the hash input
includes the security name, market, issue type and the event's own
date, not the open-date text.  In `twse_auction_calendar.py` the uid
embeds prefix, kind, code and the event's own date verbatim with no
hash at all (distinct kinds still give distinct uids). -/
theorem c1_uid_amended :
    (∀ (row : GC.Row) (suffix code od : String),
        Util.dget row "證券代號" = some code →
        Util.dget row "開標日期" = some od →
        GC.make_uid row suffix =
          some (Util.md5Hex (code ++ "-" ++ od ++ "-" ++ suffix) ++
            "@twse-auction")) ∧
    (GC.make_uid (GC.rowOfData twseFields rowA) "bid" ≠
        GC.make_uid (GC.rowOfData twseFields rowA) "open" ∧
      GC.make_uid (GC.rowOfData twseFields rowA) "open" ≠
        GC.make_uid (GC.rowOfData twseFields rowA) "list" ∧
      GC.make_uid (GC.rowOfData twseFields rowA) "bid" ≠
        GC.make_uid (GC.rowOfData twseFields rowA) "list") ∧
    (∀ (fields raw_row : List String) (e : GT.CalendarEvent),
        e ∈ GT.rowEvents fields raw_row →
        ∃ p d, p ∈ GT.EVENT_DATE_FIELDS ∧
          GT.parse_twse_date
            (Util.dgetD (GT.normalize_row fields raw_row) p.1 "") = some d ∧
          e.uid = GT.stable_uid (String.intercalate "|"
            [GT.value_or_dash (GT.normalize_row fields raw_row) "證券代號",
             GT.value_or_dash (GT.normalize_row fields raw_row) "證券名稱",
             p.2, Util.isoformat d,
             GT.value_or_dash (GT.normalize_row fields raw_row) "發行市場",
             GT.value_or_dash (GT.normalize_row fields raw_row) "發行性質"])) ∧
    (TA._event_uid "twse-auction" (TA.auctionRowOfData rowCancelled)
        ⟨2025, 6, 10⟩ "BIDSTART" ≠
      TA._event_uid "twse-auction" (TA.auctionRowOfData rowCancelled)
        ⟨2025, 6, 10⟩ "OPEN") := by
  refine ⟨?_, by decide, ?_, by decide⟩
  · intro row suffix code od h1 h2
    rw [GC.make_uid, h1, h2]
  · intro fields raw_row e he
    simp only [GT.rowEvents, List.mem_filterMap] at he
    obtain ⟨p, hp, hg⟩ := he
    cases hd : GT.parse_twse_date
        (Util.dgetD (GT.normalize_row fields raw_row) p.1 "") with
    | none => rw [hd] at hg; exact Option.noConfusion hg
    | some d =>
      rw [hd] at hg
      have he2 := Option.some_inj.mp hg
      refine ⟨p, d, hp, hd, ?_⟩
      rw [← he2]

set_option maxRecDepth 40000 in
/-- Witness for C1 at the concrete record 91027 / 2025/06/10: the `bid`
uid is the MD5 of exactly `code-openDate-kind` with the domain tag. -/
theorem c1_witness :
    GC.make_uid (GC.rowOfData twseFields rowA) "bid" =
      some (Util.md5Hex ("91027" ++ "-" ++ "2025/06/10" ++ "-" ++ "bid") ++
        "@twse-auction") :=
  c1_uid_amended.1 (GC.rowOfData twseFields rowA) "bid" "91027" "2025/06/10"
    (by decide) (by decide)

set_option maxRecDepth 40000 in
/-- Counterexample for C1 as stated: in
`generate_twse_auction_calendar.py`, two records that agree on the
security code and the open-date text and differ only in the security
name — a non-identity field — produce different uids, because the uid
hash input also covers the security name, market and issue type. -/
theorem c1_counterexample :
    (Util.dget (GT.normalize_row twseFields rowA) "證券代號" =
        Util.dget (GT.normalize_row twseFields rowB) "證券代號") ∧
    (Util.dget (GT.normalize_row twseFields rowA) "開標日期" =
        Util.dget (GT.normalize_row twseFields rowB) "開標日期") ∧
    ((GT.build_events twseFields [rowA]).map (fun e => e.uid) ≠
        (GT.build_events twseFields [rowB]).map (fun e => e.uid)) := by
  decide
